import Mathlib

/-!
Verification of the Lava_N_Aqua simulation engine and solver framework.

The definitions below are a shallow embedding of the Python sources:
  - src/Lava_Aqua/core/constants.py   (TileType, Direction, MAX_UNDO_HISTORY)
  - src/Lava_Aqua/graphics/grid.py    (Grid)
  - src/Lava_Aqua/entities/lava.py    (Lava.update and the position-set operations)
  - src/Lava_Aqua/entities/aqua.py    (Aqua.update)
  - src/Lava_Aqua/entities/temporary_wall.py (TemporaryWall)
  - src/Lava_Aqua/entities/exit_key.py (ExitKey)
  - src/Lava_Aqua/core/game.py        (GameState, GameLogic)
  - src/Lava_Aqua/algorithms/base_solver.py and bfs_solver.py (state keys)

Python sets of coordinate pairs are embedded as `Finset (Int × Int)`; the
arbitrary iteration order of a Python set is replaced by the canonical
lexicographically sorted order wherever the code materializes a set into a
list (`get_state`, collision handling).  Machine integers are embedded as
`Int` (Python integers are unbounded, so no wrap-around modelling is needed).
-/

set_option maxRecDepth 4000

abbrev Pos : Type := Int × Int

/-- Tile types, from `core/constants.py` (`class TileType(Enum)`). -/
inductive TileType : Type where
  | EMPTY
  | WALL
  | LAVA
  | AQUA
  | PLAYER
  | EXIT
  | BOX
  | Key
  | Temp_Wall
  | Semi_Wall
  | Dark_Wall
deriving DecidableEq

/-- Modelled from the spec: `Grid.is_walkable`'s per-tile walkability test is
not present in src for the TileType enumeration actually in use (the
`graphics/tile.py` in src refers to `TileType.FLOOR` and `TileType.WATER`,
members that do not exist in `core/constants.TileType`).  Spec 4.1: walkable
is true for Empty, Exit, DarkWall. -/
def TileType.isWalkableType : TileType → Bool
  | .EMPTY => true
  | .EXIT => true
  | .Dark_Wall => true
  | _ => false

/-- Modelled from the spec: `Grid.is_flowable` is called by `lava.py`,
`aqua.py` and never defined anywhere in src.  Spec 4.1: flowable is true for
Empty, SemiWall. -/
def TileType.isFlowableType : TileType → Bool
  | .EMPTY => true
  | .Semi_Wall => true
  | _ => false

/-- Grid, from `graphics/grid.py`: width and height are captured at
construction; tiles are a row-major nested list indexed `tiles[y][x]`. -/
structure Grid : Type where
  width : Nat
  height : Nat
  tiles : List (List TileType)
deriving DecidableEq

/-- Tile lookup, from `Grid.get_tile` / `Grid.get_tile_type`: bounds-checked
against the stored width and height, `none` when out of bounds. -/
def Grid.getTileType (g : Grid) (x y : Int) : Option TileType :=
  if 0 ≤ y ∧ y < (g.height : Int) ∧ 0 ≤ x ∧ x < (g.width : Int) then
    match g.tiles.get? y.toNat with
    | some row => row.get? x.toNat
    | none => none
  else none

/-- Tile mutation, from `Grid.set_tile_type`: a no-op out of bounds. -/
def Grid.setTileType (g : Grid) (x y : Int) (t : TileType) : Grid :=
  if 0 ≤ y ∧ y < (g.height : Int) ∧ 0 ≤ x ∧ x < (g.width : Int) then
    { g with tiles := g.tiles.set y.toNat ((g.tiles.getD y.toNat []).set x.toNat t) }
  else g

/-- Walkability, from `Grid.is_walkable` (out of bounds is not walkable). -/
def Grid.isWalkable (g : Grid) (x y : Int) : Bool :=
  match g.getTileType x y with
  | some t => t.isWalkableType
  | none => false

/-- Flowability; per-tile test modelled from the spec (see
`TileType.isFlowableType`), bounds handling as in `Grid.is_walkable`. -/
def Grid.isFlowable (g : Grid) (x y : Int) : Bool :=
  match g.getTileType x y with
  | some t => t.isFlowableType
  | none => false

/-- Lexicographic order on coordinate pairs: the order Python's `sorted`
uses on tuples of two ints. -/
def posLe (a b : Pos) : Prop :=
  a.1 < b.1 ∨ (a.1 = b.1 ∧ a.2 ≤ b.2)

instance : DecidableRel posLe := by
  intro a b
  unfold posLe
  infer_instance

instance : IsTrans Pos posLe := by
  constructor
  intro a b c hab hbc
  rcases hab with h1 | ⟨h1, h1'⟩ <;> rcases hbc with h2 | ⟨h2, h2'⟩ <;>
    unfold posLe <;> omega

instance : IsAntisymm Pos posLe := by
  constructor
  intro a b hab hba
  rcases hab with h1 | ⟨h1, h1'⟩ <;> rcases hba with h2 | ⟨h2, h2'⟩ <;>
    (try omega) <;> exact Prod.ext h1 (by omega)

instance : IsTotal Pos posLe := by
  constructor
  intro a b
  unfold posLe
  omega

/-- Lexicographic order on (position, duration) pairs: the order Python's
`sorted` uses on the `temp_wall_data` entries. -/
def twLe (a b : Pos × Int) : Prop :=
  a.1.1 < b.1.1 ∨ (a.1.1 = b.1.1 ∧ (a.1.2 < b.1.2 ∨ (a.1.2 = b.1.2 ∧ a.2 ≤ b.2)))

instance : DecidableRel twLe := by
  intro a b
  unfold twLe
  infer_instance

instance : IsTrans (Pos × Int) twLe := by
  constructor
  intro a b c hab hbc
  unfold twLe at *
  omega

instance : IsAntisymm (Pos × Int) twLe := by
  constructor
  intro a b hab hba
  unfold twLe at *
  exact Prod.ext (Prod.ext (by omega) (by omega)) (by omega)

instance : IsTotal (Pos × Int) twLe := by
  constructor
  intro a b
  unfold twLe
  omega

/-- Sorted copy of a list of positions (Python `sorted` on `(x, y)` tuples). -/
def sortPosList (l : List Pos) : List Pos := l.insertionSort posLe

/-- Sorted copy of a list of indices (Python `sorted` on ints). -/
def sortNatList (l : List Nat) : List Nat := l.insertionSort (· ≤ ·)

/-- Sorted copy of a temp-wall data list (Python `sorted` on nested tuples). -/
def sortTWList (l : List (Pos × Int)) : List (Pos × Int) := l.insertionSort twLe

theorem insertionSort_eq_iff_perm {α : Type} (r : α → α → Prop) [DecidableRel r]
    [IsTotal α r] [IsTrans α r] [IsAntisymm α r] (l₁ l₂ : List α) :
    l₁.insertionSort r = l₂.insertionSort r ↔ l₁.Perm l₂ := by
  constructor
  · intro h
    have h1 := (l₁.perm_insertionSort r).symm
    rw [h] at h1
    exact h1.trans (l₂.perm_insertionSort r)
  · intro h
    exact List.eq_of_perm_of_sorted
      (((l₁.perm_insertionSort r).trans h).trans (l₂.perm_insertionSort r).symm)
      (l₁.sorted_insertionSort r) (l₂.sorted_insertionSort r)

theorem sortPosList_eq_iff {l₁ l₂ : List Pos} :
    sortPosList l₁ = sortPosList l₂ ↔ l₁.Perm l₂ :=
  insertionSort_eq_iff_perm posLe l₁ l₂

theorem sortNatList_eq_iff {l₁ l₂ : List Nat} :
    sortNatList l₁ = sortNatList l₂ ↔ l₁.Perm l₂ :=
  insertionSort_eq_iff_perm (· ≤ ·) l₁ l₂

theorem sortTWList_eq_iff {l₁ l₂ : List (Pos × Int)} :
    sortTWList l₁ = sortTWList l₂ ↔ l₁.Perm l₂ :=
  insertionSort_eq_iff_perm twLe l₁ l₂

/-- Sorted list of the elements of a finite set of positions: the canonical
stand-in for Python's unspecified set-iteration order wherever the code
materializes a set into a list. -/
def sortedPosList (s : Finset Pos) : List Pos :=
  Quot.liftOn s.val (fun l => l.insertionSort posLe)
    (fun a b h =>
      List.eq_of_perm_of_sorted
        (((a.perm_insertionSort posLe).trans h).trans (b.perm_insertionSort posLe).symm)
        (a.sorted_insertionSort posLe) (b.sorted_insertionSort posLe))

theorem mem_sortedPosList (s : Finset Pos) (p : Pos) :
    p ∈ sortedPosList s ↔ p ∈ s := by
  obtain ⟨l0, hl0⟩ := Quot.exists_rep s.val
  have h1 : sortedPosList s = l0.insertionSort posLe := by
    unfold sortedPosList
    rw [← hl0]
  have h2 : p ∈ s ↔ p ∈ l0 := by
    have hmem : p ∈ s ↔ p ∈ s.val := Iff.rfl
    rw [hmem, ← hl0]
    exact Multiset.mem_coe
  rw [h1, h2]
  exact (l0.perm_insertionSort posLe).mem_iff

theorem sortedPosList_toFinset (s : Finset Pos) :
    (sortedPosList s).toFinset = s := by
  apply Finset.ext
  intro p
  rw [List.mem_toFinset, mem_sortedPosList]

/-- Movement directions, from `core/constants.py` (`class Direction(Enum)`). -/
inductive Direction : Type where
  | UP
  | DOWN
  | LEFT
  | RIGHT
deriving DecidableEq

/-- Direction deltas, from `Direction`'s enum values. -/
def Direction.val : Direction → Pos
  | .UP => (0, -1)
  | .DOWN => (0, 1)
  | .LEFT => (-1, 0)
  | .RIGHT => (1, 0)

/-- Temporary wall, from `entities/temporary_wall.py`.  Note `__init__` sets
`_expired = False` unconditionally, even for a non-positive duration. -/
structure TemporaryWall : Type where
  pos : Pos
  initialDuration : Int
  remaining : Int
  expired : Bool
deriving DecidableEq

/-- From `TemporaryWall.is_blocking`. -/
def TemporaryWall.isBlocking (w : TemporaryWall) : Bool := !w.expired

/-- From `TemporaryWall.set_remaining_duration`: stores the new duration and
recomputes the expired flag (also reviving an expired wall). -/
def TemporaryWall.setRemainingDuration (w : TemporaryWall) (d : Int) : TemporaryWall :=
  { w with remaining := d, expired := decide (d ≤ 0) }

/-- From `TemporaryWall.update`: decrement while positive, expire at zero. -/
def TemporaryWall.update (w : TemporaryWall) : TemporaryWall :=
  let r := if 0 < w.remaining then w.remaining - 1 else w.remaining
  { w with remaining := r, expired := if r ≤ 0 then true else w.expired }

/-- Exit key, from `entities/exit_key.py`. -/
structure ExitKey : Type where
  pos : Pos
  collected : Bool
deriving DecidableEq

/-- Lava spread directions: `[Direction.value for Direction in Direction]`
in `Lava.update`, i.e. the enum order UP, DOWN, LEFT, RIGHT. -/
def lavaDirs : List Pos := [(0, -1), (0, 1), (-1, 0), (1, 0)]

/-- Aqua spread directions: the literal list in `Aqua.update`. -/
def aquaDirs : List Pos := [(1, 0), (-1, 0), (0, 1), (0, -1)]

/-- Bounds test used by both hazard updates
(`0 <= nx < grid_width and 0 <= ny < grid_height`). -/
def inBoundsB (g : Grid) (p : Pos) : Bool :=
  decide (0 ≤ p.1 ∧ p.1 < (g.width : Int) ∧ 0 ≤ p.2 ∧ p.2 < (g.height : Int))

/-- From `Lava.update`: one spreading tick.  A neighbor of an occupied cell
joins when it is in bounds, flowable, not box-occupied and not on a blocking
temporary wall; the result is the union with the current set. -/
def lavaUpdate (positions : Finset Pos) (g : Grid) (boxPositions : List Pos)
    (tempWallPositions : List Pos) : Finset Pos :=
  positions ∪ positions.biUnion (fun p =>
    ((lavaDirs.map (fun d => (p.1 + d.1, p.2 + d.2))).filter (fun n =>
      inBoundsB g n && g.isFlowable n.1 n.2 && !(boxPositions.contains n)
        && !(tempWallPositions.contains n))).toFinset)

/-- Aqua spreading tick.  The body is from `Aqua.update` in
`entities/aqua.py` (in bounds, flowable, not box-occupied, not a Key tile);
the temporary-wall filter is modelled from the spec: `GameLogic` passes the
blocking temporary-wall positions as a third argument, but the
`Aqua.update` defined in src accepts no such parameter, so the update the
engine actually invokes is not in src.  Spec 4.2: a neighbor joins iff it is
within bounds, flowable, not a key cell, not box-occupied, and not blocked
by an active temporary wall. -/
def aquaUpdate (positions : Finset Pos) (g : Grid) (boxPositions : List Pos)
    (tempWallPositions : List Pos) : Finset Pos :=
  positions ∪ positions.biUnion (fun p =>
    ((aquaDirs.map (fun d => (p.1 + d.1, p.2 + d.2))).filter (fun n =>
      inBoundsB g n && g.isFlowable n.1 n.2 && !(boxPositions.contains n)
        && !(g.getTileType n.1 n.2 = some TileType.Key)
        && !(tempWallPositions.contains n))).toFinset)

/-- Game-state snapshot, from the `GameState` dataclass in `core/game.py`. -/
structure GameState : Type where
  player_pos : Pos
  box_positions : List Pos
  lava_positions : List Pos
  aqua_positions : List Pos
  collected_key_indices : List Nat
  temp_wall_data : List (Pos × Int)
  altered_tile_positions : List Pos
  moves : Int
deriving DecidableEq

/-- Live engine state: the mutable fields of the `GameLogic` class. -/
structure GameLogic : Type where
  grid : Grid
  player : Pos
  lava : Finset Pos
  aqua : Finset Pos
  boxes : List Pos
  exitKeys : List ExitKey
  tempWalls : List TemporaryWall
  alteredTilePositions : List Pos
  exitPos : Pos
  moves : Int
  history : List GameState
  gameOver : Bool
  levelComplete : Bool
deriving DecidableEq

/-- From `MAX_UNDO_HISTORY` in `core/constants.py`. -/
def MAX_UNDO_HISTORY : Nat := 50

/-- Index scan for `GameLogic._get_box_at` (`for box in self.boxes: ...`). -/
def boxIdxAux : List Pos → Pos → Nat → Option Nat
  | [], _, _ => none
  | b :: rest, p, i => if b = p then some i else boxIdxAux rest p (i + 1)

/-- From `GameLogic._get_box_at`: index of the first box at a position. -/
def getBoxIdxAt (l : GameLogic) (p : Pos) : Option Nat :=
  boxIdxAux l.boxes p 0

/-- From `GameLogic._get_active_temp_wall_at`. -/
def getActiveTempWallAt (l : GameLogic) (p : Pos) : Option TemporaryWall :=
  l.tempWalls.find? (fun w => w.pos = p && w.isBlocking)

/-- From `GameLogic.can_move_to`: in bounds, no blocking temporary wall,
walkable tile. -/
def canMoveTo (l : GameLogic) (p : Pos) : Bool :=
  if p.2 < 0 || (l.grid.height : Int) ≤ p.2 || p.1 < 0 || (l.grid.width : Int) ≤ p.1 then
    false
  else if (getActiveTempWallAt l p).isSome then
    false
  else
    l.grid.isWalkable p.1 p.2

/-- Indices of collected keys:
`[i for i, key in enumerate(self.exit_keys) if key.is_collected()]`. -/
def collectedIndicesAux : List ExitKey → Nat → List Nat
  | [], _ => []
  | k :: rest, i =>
    if k.collected then i :: collectedIndicesAux rest (i + 1)
    else collectedIndicesAux rest (i + 1)

def collectedIndices (ks : List ExitKey) : List Nat := collectedIndicesAux ks 0

/-- From `GameLogic.get_state` (and the identical snapshot construction in
`save_state`).  The Python code materializes the lava and aqua sets into
lists in unspecified set order; the embedding uses the sorted order. -/
def getState (l : GameLogic) : GameState :=
  { player_pos := l.player
    box_positions := l.boxes
    lava_positions := sortedPosList l.lava
    aqua_positions := sortedPosList l.aqua
    collected_key_indices := collectedIndices l.exitKeys
    temp_wall_data := l.tempWalls.map (fun w => (w.pos, w.remaining))
    altered_tile_positions := l.alteredTilePositions
    moves := l.moves }

/-- History trimming in `GameLogic.save_state`: append, then drop the oldest
entry when the bound is exceeded. -/
def trimHistory (h : List GameState) : List GameState :=
  if MAX_UNDO_HISTORY < h.length then h.drop 1 else h

/-- From `GameLogic.save_state`. -/
def saveState (l : GameLogic) : GameLogic :=
  { l with history := trimHistory (l.history ++ [getState l]) }

/-- From `GameLogic._can_push_box`: no box, walkable, no blocking wall. -/
def canPushBox (l : GameLogic) (p : Pos) : Bool :=
  if (getBoxIdxAt l p).isSome then false
  else if !(l.grid.isWalkable p.1 p.2) then false
  else if (getActiveTempWallAt l p).isSome then false
  else true

/-- From `GameLogic._execute_box_push`: snapshot, move the box, extinguish
any hazard under its landing cell, move the player, count the move. -/
def executeBoxPush (l : GameLogic) (boxIdx : Nat) (playerNewPos boxNewPos : Pos) :
    GameLogic :=
  let l1 := saveState l
  let l2 := { l1 with boxes := l1.boxes.set boxIdx boxNewPos }
  let l3 := { l2 with lava := l2.lava.erase boxNewPos }
  let l4 := { l3 with aqua := l3.aqua.erase boxNewPos }
  { l4 with player := playerNewPos, moves := l4.moves + 1 }

/-- From `GameLogic._handle_empty_space_move`. -/
def handleEmptySpaceMove (l : GameLogic) (newPos : Pos) : GameLogic :=
  let l1 := saveState l
  { l1 with player := newPos, moves := l1.moves + 1 }

/-- Positions of blocking temporary walls, as passed to the hazard updates
by `GameLogic._update_game_state`. -/
def blockingWallPositions (l : GameLogic) : List Pos :=
  (l.tempWalls.filter (fun w => w.isBlocking)).map (fun w => w.pos)

/-- Iterated `Grid.set_tile_type`, used for the WALL promotions in
`GameLogic._handle_lava_aqua_collisions` and the EMPTY reverts in
`GameLogic.undo` / `GameLogic.load_state`. -/
def setTilesTo (g : Grid) (t : TileType) : List Pos → Grid
  | [] => g
  | p :: rest => setTilesTo (g.setTileType p.1 p.2 t) t rest

/-- From `GameLogic._handle_lava_aqua_collisions`: every cell holding both
lava and aqua loses both, is promoted to a WALL tile, and is recorded in
`altered_tile_positions`.  Python iterates the collision set in unspecified
set order; the embedding processes it in sorted order. -/
def handleLavaAquaCollisions (l : GameLogic) : GameLogic :=
  let cols := l.lava ∩ l.aqua
  { l with
    lava := l.lava \ cols
    aqua := l.aqua \ cols
    grid := setTilesTo l.grid TileType.WALL (sortedPosList cols)
    alteredTilePositions := l.alteredTilePositions ++ sortedPosList cols }

/-- Key collection step of `GameLogic._check_game_state`. -/
def collectKeysAt (p : Pos) (ks : List ExitKey) : List ExitKey :=
  ks.map (fun k => if k.pos = p && !k.collected then { k with collected := true } else k)

/-- From `GameLogic._check_game_state`: collect keys under the player, then
flag level completion (exit reached with all keys) and game over (player on
a WALL tile or on lava).  The flags are only ever raised here. -/
def checkGameState (l : GameLogic) : GameLogic :=
  let ks := collectKeysAt l.player l.exitKeys
  let allCollected := ks.all (fun k => k.collected)
  let lc := if l.player = l.exitPos && allCollected then true else l.levelComplete
  let go1 := if l.grid.getTileType l.player.1 l.player.2 = some TileType.WALL then true
    else l.gameOver
  let go2 := if l.player ∈ l.lava then true else go1
  { l with exitKeys := ks, levelComplete := lc, gameOver := go2 }

/-- Aqua-propagation phase of `GameLogic._update_game_state`. -/
def aquaPhase (l : GameLogic) : GameLogic :=
  { l with aqua := aquaUpdate l.aqua l.grid l.boxes (blockingWallPositions l) }

/-- Lava-propagation phase of `GameLogic._update_game_state`. -/
def lavaPhase (l : GameLogic) : GameLogic :=
  { l with lava := lavaUpdate l.lava l.grid l.boxes (blockingWallPositions l) }

/-- Temporary-wall aging phase of `GameLogic._update_game_state`. -/
def ageWallsPhase (l : GameLogic) : GameLogic :=
  { l with tempWalls := l.tempWalls.map TemporaryWall.update }

/-- From `GameLogic._update_game_state`: propagate aqua, resolve collisions,
propagate lava, resolve collisions again, age the temporary walls, then
evaluate the terminal condition. -/
def updateGameState (l : GameLogic) : GameLogic :=
  checkGameState (ageWallsPhase (handleLavaAquaCollisions (lavaPhase
    (handleLavaAquaCollisions (aquaPhase l)))))

/-- Next position in a direction (`player_pos + direction`). -/
def stepPos (p : Pos) (d : Direction) : Pos :=
  (p.1 + d.val.1, p.2 + d.val.2)

/-- Steps 1-4 of `GameLogic.move_player`: legality checks and the mutation
performed by the committed move, before the simulation tick.  Returns
`none` exactly when the move is rejected (in which case the Python code has
performed no mutation at all). -/
def attemptMove (l : GameLogic) (d : Direction) : Option GameLogic :=
  if l.gameOver || l.levelComplete then none
  else if !(canMoveTo l (stepPos l.player d)) then none
  else
    match getBoxIdxAt l (stepPos l.player d) with
    | some i =>
      if canPushBox l (stepPos (stepPos l.player d) d) then
        some (executeBoxPush l i (stepPos l.player d) (stepPos (stepPos l.player d) d))
      else none
    | none => some (handleEmptySpaceMove l (stepPos l.player d))

/-- From `GameLogic.move_player`: on a committed move run the simulation
tick and report success; otherwise report failure with the state untouched. -/
def movePlayer (l : GameLogic) (d : Direction) : Bool × GameLogic :=
  match attemptMove l d with
  | some m => (true, updateGameState m)
  | none => (false, l)

/-- Prefix overwrite used by the box-restoring loop of `GameLogic.undo` and
`GameLogic.load_state`
(`for i, pos in enumerate(state.box_positions): self.boxes[i].set_position(pos)`). -/
def overwriteBoxes (vals cur : List Pos) : List Pos :=
  vals.take cur.length ++ cur.drop vals.length

/-- Key-restoring loop of `GameLogic.undo` and `GameLogic.load_state`:
collect key `i` exactly when `i` is among the saved collected indices. -/
def restoreKeys (ks : List ExitKey) (idxs : List Nat) (i : Nat) : List ExitKey :=
  match ks with
  | [] => []
  | k :: rest => { k with collected := decide (i ∈ idxs) } :: restoreKeys rest idxs (i + 1)

/-- From `GameLogic._get_temp_wall_at` followed by `set_remaining_duration`:
update the first wall at the given position, if any. -/
def setWallDurationAt : List TemporaryWall → Pos → Int → List TemporaryWall
  | [], _, _ => []
  | w :: ws, p, d =>
    if w.pos = p then w.setRemainingDuration d :: ws
    else w :: setWallDurationAt ws p d

/-- Temp-wall restoring loop of `GameLogic.undo` and `GameLogic.load_state`. -/
def restoreWallDurations (ws : List TemporaryWall) (data : List (Pos × Int)) :
    List TemporaryWall :=
  data.foldl (fun acc pd => setWallDurationAt acc pd.1 pd.2) ws

/-- Entity restoration shared verbatim by `GameLogic.undo` and
`GameLogic.load_state`: restore player, hazards, boxes, temp-wall durations
and keys from the snapshot, revert the tiles altered since the snapshot back
to EMPTY, restore the altered-tile list and move counter, clear terminal
flags. -/
def restoreEntities (l : GameLogic) (st : GameState) : GameLogic :=
  let tilesToRevert := l.alteredTilePositions.toFinset \ st.altered_tile_positions.toFinset
  { l with
    player := st.player_pos
    lava := st.lava_positions.toFinset
    aqua := st.aqua_positions.toFinset
    boxes := overwriteBoxes st.box_positions l.boxes
    tempWalls := restoreWallDurations l.tempWalls st.temp_wall_data
    exitKeys := restoreKeys l.exitKeys st.collected_key_indices 0
    grid := setTilesTo l.grid TileType.EMPTY (sortedPosList tilesToRevert)
    alteredTilePositions := st.altered_tile_positions
    moves := st.moves
    gameOver := false
    levelComplete := false }

/-- From `GameLogic.undo`: pop the most recent snapshot and restore it;
report failure on empty history. -/
def undo (l : GameLogic) : Bool × GameLogic :=
  match l.history.getLast? with
  | none => (false, l)
  | some st => (true, restoreEntities { l with history := l.history.dropLast } st)

/-- From `GameLogic.load_state`: restore a snapshot (history untouched) and
re-evaluate the terminal condition. -/
def loadState (l : GameLogic) (st : GameState) : GameLogic :=
  checkGameState (restoreEntities l st)

/-- From `GameLogic.simulate_move`: snapshot, attempt the move, capture the
successor only on a committed non-fatal move, restore unconditionally. -/
def simulateMove (l : GameLogic) (d : Direction) : Option GameState × GameLogic :=
  if (movePlayer l d).1 && !(movePlayer l d).2.gameOver then
    (some (getState (movePlayer l d).2), loadState (movePlayer l d).2 (getState l))
  else
    (none, loadState (movePlayer l d).2 (getState l))

/-- Canonical state key, from `BaseSolver._hash_state`: player position and
the sorted box, key-index, lava, aqua, temp-wall and altered-tile
components.  The Python function renders these components to strings and
concatenates them; since each component's rendering is injective and
bracket-delimited, the string is uniquely parsable and the embedding keeps
the components as a tuple. -/
def baseHashState (st : GameState) :
    Pos × List Pos × List Nat × List Pos × List Pos × List (Pos × Int) × List Pos :=
  (st.player_pos, sortPosList st.box_positions, sortNatList st.collected_key_indices,
    sortPosList st.lava_positions, sortPosList st.aqua_positions,
    sortTWList st.temp_wall_data, sortPosList st.altered_tile_positions)

/-- Overriding state key of `BFSSolver._hash_state`: only player, boxes,
collected keys, lava and aqua. -/
def bfsHashState (st : GameState) :
    Pos × List Pos × List Nat × List Pos × List Pos :=
  (st.player_pos, sortPosList st.box_positions, sortNatList st.collected_key_indices,
    sortPosList st.lava_positions, sortPosList st.aqua_positions)

/-- Four axis neighbors of a cell, for the lookahead of `allowed_moves`. -/
def axisNeighbors (p : Pos) : List Pos :=
  [(p.1 + 1, p.2), (p.1 - 1, p.2), (p.1, p.2 + 1), (p.1, p.2 - 1)]

/-- Ordinary move/push legality of one direction, as checked by steps 1-3 of
`GameLogic.move_player`. -/
def moveLegal (l : GameLogic) (d : Direction) : Bool :=
  if l.gameOver || l.levelComplete then false
  else if !(canMoveTo l (stepPos l.player d)) then false
  else
    match getBoxIdxAt l (stepPos l.player d) with
    | some _ => canPushBox l (stepPos (stepPos l.player d) d)
    | none => true

/-- Modelled from the spec: `allowed_moves` is called by every solver but is
not defined anywhere in src.  Spec 4.3: include a direction iff (a)
ordinary move/push legality holds, and (b) a one-step lookahead shows none
of the four neighbors of the destination cell currently contain Lava. -/
def allowedMoves (l : GameLogic) : List Direction :=
  [Direction.UP, Direction.DOWN, Direction.LEFT, Direction.RIGHT].filter (fun d =>
    moveLegal l d && (axisNeighbors (stepPos l.player d)).all (fun n => !(n ∈ l.lava)))

theorem listGet_set_self {α : Type} (a : α) : ∀ (l : List α) (i : Nat), i < l.length →
    (l.set i a).get? i = some a
  | [], i, h => by simp at h
  | _ :: _, 0, _ => rfl
  | x :: xs, i + 1, h =>
    listGet_set_self a xs i (Nat.lt_of_succ_lt_succ (by simpa using h))

theorem listGet_set_ne {α : Type} (a : α) : ∀ (l : List α) (i j : Nat), i ≠ j →
    (l.set i a).get? j = l.get? j
  | [], _, _, _ => rfl
  | _ :: _, 0, 0, h => absurd rfl h
  | _ :: _, 0, _ + 1, _ => rfl
  | _ :: _, _ + 1, 0, _ => rfl
  | x :: xs, i + 1, j + 1, h => by
    have := listGet_set_ne a xs i j (fun hc => h (by omega))
    simpa using this

theorem listMem_set_cases {α : Type} (a : α) : ∀ (l : List α) (i : Nat) (x : α),
    x ∈ l.set i a → x ∈ l ∨ x = a
  | [], _, _, h => by simp at h
  | y :: ys, 0, x, h => by
    rcases List.mem_cons.mp h with h | h
    · exact Or.inr h
    · exact Or.inl (List.mem_cons_of_mem y h)
  | y :: ys, i + 1, x, h => by
    rcases List.mem_cons.mp h with h | h
    · exact Or.inl (h ▸ List.mem_cons_self y ys)
    · rcases listMem_set_cases a ys i x h with h | h
      · exact Or.inl (List.mem_cons_of_mem y h)
      · exact Or.inr h

theorem listGetD_eq {α : Type} (l : List α) (i : Nat) (d r : α)
    (h : l.get? i = some r) : l.getD i d = r := by
  unfold List.getD
  rw [h]
  rfl

/-- Well-formedness of a grid: the tile rows cover exactly the recorded
height and width.  The level loader raises a fatal error on ragged rows, so
every grid the engine builds satisfies this. -/
def Grid.WF (g : Grid) : Prop :=
  g.tiles.length = g.height ∧ ∀ row ∈ g.tiles, row.length = g.width

theorem Grid.width_setTileType (g : Grid) (x y : Int) (t : TileType) :
    (g.setTileType x y t).width = g.width := by
  unfold Grid.setTileType
  split <;> rfl

theorem Grid.height_setTileType (g : Grid) (x y : Int) (t : TileType) :
    (g.setTileType x y t).height = g.height := by
  unfold Grid.setTileType
  split <;> rfl

theorem Grid.setTileType_eq_of_inBounds (g : Grid) (x y : Int) (t : TileType)
    (hb : 0 ≤ y ∧ y < (g.height : Int) ∧ 0 ≤ x ∧ x < (g.width : Int)) :
    g.setTileType x y t =
      { width := g.width, height := g.height,
        tiles := g.tiles.set y.toNat ((g.tiles.getD y.toNat []).set x.toNat t) } := by
  unfold Grid.setTileType
  rw [if_pos hb]

theorem Grid.WF_setTileType (g : Grid) (x y : Int) (t : TileType) (h : g.WF) :
    (g.setTileType x y t).WF := by
  unfold Grid.setTileType
  split
  · refine ⟨by simpa using h.1, ?_⟩
    intro row hrow
    simp only at hrow
    by_cases hylen : y.toNat < g.tiles.length
    · rcases listMem_set_cases _ _ _ _ hrow with hmem | heq
      · exact h.2 row hmem
      · subst heq
        rw [List.length_set]
        rcases hg : g.tiles.get? y.toNat with _ | r
        · exact absurd (List.get?_eq_none.mp hg) (by omega)
        · rw [listGetD_eq _ _ _ _ hg]
          exact h.2 r (List.get?_mem hg)
    · rw [List.set_eq_of_length_le (by omega)] at hrow
      exact h.2 row hrow
  · exact h

theorem Grid.getTileType_setTileType_self (g : Grid) (x y : Int) (t : TileType)
    (hwf : g.WF)
    (hb : 0 ≤ y ∧ y < (g.height : Int) ∧ 0 ≤ x ∧ x < (g.width : Int)) :
    (g.setTileType x y t).getTileType x y = some t := by
  have hylen : y.toNat < g.tiles.length := by rw [hwf.1]; omega
  rcases hg : g.tiles.get? y.toNat with _ | row
  · exact absurd (List.get?_eq_none.mp hg) (by omega)
  have hrowlen : row.length = g.width := hwf.2 row (List.get?_mem hg)
  rw [Grid.setTileType_eq_of_inBounds g x y t hb]
  unfold Grid.getTileType
  simp only
  rw [if_pos hb]
  rw [listGet_set_self _ _ _ hylen, listGetD_eq _ _ _ _ hg]
  exact listGet_set_self t row x.toNat (by omega)

theorem Grid.getTileType_setTileType_ne (g : Grid) (x y : Int) (t : TileType)
    (x' y' : Int) (h : ¬(x' = x ∧ y' = y)) :
    (g.setTileType x y t).getTileType x' y' = g.getTileType x' y' := by
  by_cases hin : 0 ≤ y ∧ y < (g.height : Int) ∧ 0 ≤ x ∧ x < (g.width : Int)
  · rw [Grid.setTileType_eq_of_inBounds g x y t hin]
    unfold Grid.getTileType
    simp only
    by_cases hin' : 0 ≤ y' ∧ y' < (g.height : Int) ∧ 0 ≤ x' ∧ x' < (g.width : Int)
    · rw [if_pos hin', if_pos hin']
      by_cases hy : y' = y
      · have hx : x' ≠ x := fun hc => h ⟨hc, hy⟩
        subst hy
        by_cases hylen : y'.toNat < g.tiles.length
        · rw [listGet_set_self _ _ _ hylen]
          rcases hg : g.tiles.get? y'.toNat with _ | row
          · exact absurd (List.get?_eq_none.mp hg) (by omega)
          · rw [listGetD_eq _ _ _ _ hg]
            exact listGet_set_ne t row x.toNat x'.toNat (by omega)
        · rw [List.set_eq_of_length_le (by omega)]
      · rw [listGet_set_ne _ _ _ _ (by omega)]
    · rw [if_neg hin', if_neg hin']
  · unfold Grid.setTileType
    rw [if_neg hin]

theorem Grid.width_setTilesTo (t : TileType) : ∀ (ps : List Pos) (g : Grid),
    (setTilesTo g t ps).width = g.width
  | [], _ => rfl
  | p :: rest, g => by
    rw [setTilesTo, Grid.width_setTilesTo t rest _, Grid.width_setTileType]

theorem Grid.height_setTilesTo (t : TileType) : ∀ (ps : List Pos) (g : Grid),
    (setTilesTo g t ps).height = g.height
  | [], _ => rfl
  | p :: rest, g => by
    rw [setTilesTo, Grid.height_setTilesTo t rest _, Grid.height_setTileType]

theorem Grid.WF_setTilesTo (t : TileType) : ∀ (ps : List Pos) (g : Grid), g.WF →
    (setTilesTo g t ps).WF
  | [], _, h => h
  | p :: rest, g, h =>
    Grid.WF_setTilesTo t rest _ (Grid.WF_setTileType _ _ _ _ h)

theorem Grid.getTileType_setTilesTo (t : TileType) : ∀ (ps : List Pos) (g : Grid),
    g.WF → ∀ x y : Int,
    (setTilesTo g t ps).getTileType x y =
      if (x, y) ∈ ps ∧ 0 ≤ y ∧ y < (g.height : Int) ∧ 0 ≤ x ∧ x < (g.width : Int)
      then some t else g.getTileType x y
  | [], g, _, x, y => by simp [setTilesTo]
  | p :: rest, g, hwf, x, y => by
    rw [setTilesTo]
    rw [Grid.getTileType_setTilesTo t rest _ (Grid.WF_setTileType _ _ _ _ hwf) x y]
    rw [Grid.height_setTileType, Grid.width_setTileType]
    by_cases hb : 0 ≤ y ∧ y < (g.height : Int) ∧ 0 ≤ x ∧ x < (g.width : Int)
    · by_cases hmem : (x, y) ∈ rest
      · rw [if_pos ⟨hmem, hb⟩, if_pos ⟨List.mem_cons_of_mem p hmem, hb⟩]
      · rw [if_neg (fun hc => hmem hc.1)]
        by_cases hp : (x, y) = p
        · subst hp
          rw [if_pos ⟨List.mem_cons_self _ rest, hb⟩]
          exact Grid.getTileType_setTileType_self g x y t hwf ⟨hb.1, hb.2.1, hb.2.2.1, hb.2.2.2⟩
        · rw [if_neg (fun hc => by
            rcases List.mem_cons.mp hc.1 with h | h
            · exact hp h
            · exact hmem h)]
          exact Grid.getTileType_setTileType_ne g p.1 p.2 t x y
            (fun hc => hp (by rcases p with ⟨a, b⟩; simp_all))
    · rw [if_neg (fun hc => hb hc.2), if_neg (fun hc => hb hc.2)]
      have h1 : g.getTileType x y = none := by
        unfold Grid.getTileType
        rw [if_neg hb]
      have h2 : (g.setTileType p.1 p.2 t).getTileType x y = none := by
        unfold Grid.getTileType
        rw [if_neg (by rw [Grid.height_setTileType, Grid.width_setTileType]; exact hb)]
      rw [h1, h2]

theorem overwriteBoxes_eq (vals cur : List Pos) (h : vals.length = cur.length) :
    overwriteBoxes vals cur = vals := by
  unfold overwriteBoxes
  rw [← h, List.take_length, h, List.drop_length, List.append_nil]

theorem restoreKeys_eq : ∀ (ks1 ks0 : List ExitKey) (idxs : List Nat) (i : Nat),
    ks1.map ExitKey.pos = ks0.map ExitKey.pos →
    (∀ j k, ks0.get? j = some k → ((i + j) ∈ idxs ↔ k.collected = true)) →
    restoreKeys ks1 idxs i = ks0
  | [], [], _, _, _, _ => rfl
  | [], _ :: _, _, _, hpos, _ => by simp at hpos
  | _ :: _, [], _, _, hpos, _ => by simp at hpos
  | k1 :: t1, k0 :: t0, idxs, i, hpos, hidx => by
    have hpos' : k1.pos = k0.pos ∧ t1.map ExitKey.pos = t0.map ExitKey.pos := by
      simpa using hpos
    rw [restoreKeys]
    have hh0 : i ∈ idxs ↔ k0.collected = true := by
      have := hidx 0 k0 rfl
      simpa using this
    have hc : decide (i ∈ idxs) = k0.collected := by
      rcases hcol : k0.collected with _ | _
      · have hni : i ∉ idxs := fun hmem => by
          have := hh0.mp hmem
          rw [hcol] at this
          exact Bool.false_ne_true this
        simp [hni]
      · have hmi : i ∈ idxs := hh0.mpr hcol
        simp [hmi]
    have htail : restoreKeys t1 idxs (i + 1) = t0 := by
      refine restoreKeys_eq t1 t0 idxs (i + 1) hpos'.2 ?_
      intro j k hk
      have := hidx (j + 1) k (by simpa using hk)
      have harith : i + (j + 1) = i + 1 + j := by omega
      rwa [harith] at this
    rw [htail]
    rcases k1 with ⟨p1, c1⟩
    rcases k0 with ⟨p0, c0⟩
    have hp : p1 = p0 := hpos'.1
    have hcc : decide (i ∈ idxs) = c0 := hc
    simp [hp, hcc]

theorem mem_collectedIndicesAux : ∀ (ks : List ExitKey) (i m : Nat),
    m ∈ collectedIndicesAux ks i ↔
      ∃ j k, ks.get? j = some k ∧ k.collected = true ∧ m = i + j
  | [], i, m => by simp [collectedIndicesAux]
  | k :: rest, i, m => by
    rw [collectedIndicesAux]
    constructor
    · intro hm
      by_cases hcol : k.collected = true
      · rw [if_pos hcol] at hm
        rcases List.mem_cons.mp hm with hm | hm
        · exact ⟨0, k, rfl, hcol, by omega⟩
        · rcases (mem_collectedIndicesAux rest (i + 1) m).mp hm with ⟨j, k', hk', hc', hm'⟩
          exact ⟨j + 1, k', hk', hc', by omega⟩
      · rw [if_neg hcol] at hm
        rcases (mem_collectedIndicesAux rest (i + 1) m).mp hm with ⟨j, k', hk', hc', hm'⟩
        exact ⟨j + 1, k', hk', hc', by omega⟩
    · rintro ⟨j, k', hk', hc', hm'⟩
      rcases j with _ | j
      · have hkk : k = k' := by simpa using hk'
        subst hkk
        rw [if_pos hc']
        have hmi : m = i := by omega
        subst hmi
        exact List.mem_cons_self _ _
      · have hmem : m ∈ collectedIndicesAux rest (i + 1) :=
          (mem_collectedIndicesAux rest (i + 1) m).mpr ⟨j, k', hk', hc', by omega⟩
        by_cases hcol : k.collected = true
        · rw [if_pos hcol]
          exact List.mem_cons_of_mem _ hmem
        · rw [if_neg hcol]
          exact hmem

theorem restoreKeys_collectedIndices (ks1 ks0 : List ExitKey)
    (hpos : ks1.map ExitKey.pos = ks0.map ExitKey.pos) :
    restoreKeys ks1 (collectedIndices ks0) 0 = ks0 := by
  refine restoreKeys_eq ks1 ks0 (collectedIndices ks0) 0 hpos ?_
  intro j k hk
  unfold collectedIndices
  rw [mem_collectedIndicesAux]
  constructor
  · rintro ⟨j', k', hk', hc', hj⟩
    have hjj : j' = j := by omega
    subst hjj
    rw [hk] at hk'
    injection hk' with hk'
    subst hk'
    exact hc'
  · intro hc
    exact ⟨j, k, hk, hc, by omega⟩

theorem setWallDurationAt_skip (w : TemporaryWall) (ws : List TemporaryWall)
    (p : Pos) (d : Int) (h : w.pos ≠ p) :
    setWallDurationAt (w :: ws) p d = w :: setWallDurationAt ws p d := by
  rw [setWallDurationAt, if_neg h]

theorem restoreWallDurations_skip (w : TemporaryWall) :
    ∀ (data : List (Pos × Int)) (ws : List TemporaryWall),
    (∀ pd ∈ data, pd.1 ≠ w.pos) →
    restoreWallDurations (w :: ws) data = w :: restoreWallDurations ws data
  | [], _, _ => rfl
  | (p, d) :: rest, ws, h => by
    unfold restoreWallDurations
    rw [List.foldl_cons, List.foldl_cons]
    simp only
    rw [setWallDurationAt_skip w ws p d (fun hc => h (p, d) (List.mem_cons_self _ _) hc.symm)]
    exact restoreWallDurations_skip w rest _ (fun pd hpd => h pd (List.mem_cons_of_mem _ hpd))

theorem restoreWallDurations_restores :
    ∀ (ws : List TemporaryWall) (data : List (Pos × Int)),
    ws.map TemporaryWall.pos = data.map Prod.fst →
    (data.map Prod.fst).Nodup →
    (restoreWallDurations ws data).map (fun w => (w.pos, w.remaining)) = data
  | [], [], _, _ => rfl
  | [], _ :: _, hpos, _ => by simp at hpos
  | _ :: _, [], hpos, _ => by simp at hpos
  | w :: ws, (p, d) :: rest, hpos, hnd => by
    have hpos' : w.pos = p ∧ ws.map TemporaryWall.pos = rest.map Prod.fst := by
      simpa using hpos
    have hnotin : ∀ pd ∈ rest, pd.1 ≠ (w.setRemainingDuration d).pos := by
      intro pd hpd hc
      have hmem : pd.1 ∈ rest.map Prod.fst := List.mem_map_of_mem Prod.fst hpd
      rw [hc] at hmem
      have : (w.setRemainingDuration d).pos = p := hpos'.1
      rw [this] at hmem
      exact (List.nodup_cons.mp (by simpa using hnd)).1 hmem
    unfold restoreWallDurations
    rw [List.foldl_cons]
    simp only
    rw [setWallDurationAt, if_pos hpos'.1]
    have hskip := restoreWallDurations_skip (w.setRemainingDuration d) rest ws hnotin
    unfold restoreWallDurations at hskip
    rw [hskip]
    rw [List.map_cons]
    have hw : ((w.setRemainingDuration d).pos, (w.setRemainingDuration d).remaining) = (p, d) := by
      rw [TemporaryWall.setRemainingDuration]
      simp [hpos'.1]
    rw [hw]
    have htail := restoreWallDurations_restores ws rest hpos'.2
      ((List.nodup_cons.mp (by simpa using hnd)).2)
    unfold restoreWallDurations at htail
    rw [htail]

theorem collectKeysAt_eq_self (p : Pos) :
    ∀ (ks : List ExitKey), (∀ k ∈ ks, k.pos = p → k.collected = true) →
    collectKeysAt p ks = ks
  | [], _ => rfl
  | k :: rest, h => by
    unfold collectKeysAt
    rw [List.map_cons]
    have htail : collectKeysAt p rest = rest :=
      collectKeysAt_eq_self p rest (fun k' hk' => h k' (List.mem_cons_of_mem _ hk'))
    unfold collectKeysAt at htail
    rw [htail]
    have hk : (if k.pos = p && !k.collected then { k with collected := true } else k) = k := by
      by_cases hp : k.pos = p
      · rw [h k (List.mem_cons_self _ _) hp]
        simp
      · simp [hp]
    rw [hk]

theorem attemptMove_fields (l : GameLogic) (d : Direction) (m : GameLogic)
    (h : attemptMove l d = some m) :
    m.boxes.length = l.boxes.length ∧
    m.exitKeys = l.exitKeys ∧
    m.tempWalls = l.tempWalls ∧
    m.grid = l.grid ∧
    m.alteredTilePositions = l.alteredTilePositions ∧
    m.history = trimHistory (l.history ++ [getState l]) ∧
    m.exitPos = l.exitPos ∧
    m.moves = l.moves + 1 ∧
    m.player = stepPos l.player d ∧
    m.gameOver = l.gameOver ∧
    m.levelComplete = l.levelComplete := by
  unfold attemptMove at h
  split at h
  · exact absurd h (by simp)
  · split at h
    · exact absurd h (by simp)
    · split at h
      case _ i heq =>
        split at h
        · injection h with h
          subst h
          unfold executeBoxPush saveState
          refine ⟨?_, rfl, rfl, rfl, rfl, rfl, rfl, rfl, rfl, rfl, rfl⟩
          simp [List.length_set]
        · exact absurd h (by simp)
      case _ heq =>
        injection h with h
        subst h
        exact ⟨rfl, rfl, rfl, rfl, rfl, rfl, rfl, rfl, rfl, rfl, rfl⟩

theorem updateGameState_fields (m : GameLogic) :
    (updateGameState m).boxes = m.boxes ∧
    (updateGameState m).player = m.player ∧
    (updateGameState m).moves = m.moves ∧
    (updateGameState m).history = m.history ∧
    (updateGameState m).exitPos = m.exitPos ∧
    (updateGameState m).tempWalls = m.tempWalls.map TemporaryWall.update ∧
    (updateGameState m).exitKeys = collectKeysAt m.player m.exitKeys :=
  ⟨rfl, rfl, rfl, rfl, rfl, rfl, rfl⟩

/-- Relation between an engine state and a later one within one committed
move: the altered-tile list only grows by appending, the grid dimensions are
stable, well-formedness is preserved, and any changed tile has been promoted
to WALL and recorded in the altered-tile list. -/
def gridCompat (a b : GameLogic) : Prop :=
  (∃ app : List Pos, b.alteredTilePositions = a.alteredTilePositions ++ app) ∧
  b.grid.width = a.grid.width ∧ b.grid.height = a.grid.height ∧
  (a.grid.WF → b.grid.WF) ∧
  (a.grid.WF → ∀ x y : Int, b.grid.getTileType x y = a.grid.getTileType x y ∨
    (b.grid.getTileType x y = some TileType.WALL ∧ (x, y) ∈ b.alteredTilePositions))

theorem gridCompat_of_eq {a b : GameLogic} (hg : b.grid = a.grid)
    (ha : b.alteredTilePositions = a.alteredTilePositions) : gridCompat a b := by
  refine ⟨⟨[], by rw [ha, List.append_nil]⟩, by rw [hg], by rw [hg], ?_, ?_⟩
  · rw [hg]; exact id
  · intro _ x y
    rw [hg]
    exact Or.inl rfl

theorem gridCompat_trans {a b c : GameLogic} (h1 : gridCompat a b)
    (h2 : gridCompat b c) : gridCompat a c := by
  obtain ⟨⟨app1, happ1⟩, hw1, hh1, hwf1, ht1⟩ := h1
  obtain ⟨⟨app2, happ2⟩, hw2, hh2, hwf2, ht2⟩ := h2
  refine ⟨⟨app1 ++ app2, by rw [happ2, happ1, List.append_assoc]⟩,
    by rw [hw2, hw1], by rw [hh2, hh1], fun h => hwf2 (hwf1 h), ?_⟩
  intro hwf x y
  rcases ht2 (hwf1 hwf) x y with h | ⟨hwall, hmem⟩
  · rw [h]
    rcases ht1 hwf x y with h' | ⟨hwall', hmem'⟩
    · exact Or.inl h'
    · refine Or.inr ⟨hwall', ?_⟩
      rw [happ2]
      exact List.mem_append.mpr (Or.inl hmem')
  · exact Or.inr ⟨hwall, hmem⟩

theorem gridCompat_handleCollisions (a : GameLogic) :
    gridCompat a (handleLavaAquaCollisions a) := by
  unfold handleLavaAquaCollisions gridCompat
  simp only
  refine ⟨⟨sortedPosList (a.lava ∩ a.aqua), rfl⟩,
    Grid.width_setTilesTo _ _ _, Grid.height_setTilesTo _ _ _,
    fun h => Grid.WF_setTilesTo _ _ _ h, ?_⟩
  intro hwf x y
  rw [Grid.getTileType_setTilesTo _ _ _ hwf x y]
  by_cases hmem : (x, y) ∈ sortedPosList (a.lava ∩ a.aqua) ∧
      0 ≤ y ∧ y < (a.grid.height : Int) ∧ 0 ≤ x ∧ x < (a.grid.width : Int)
  · rw [if_pos hmem]
    exact Or.inr ⟨rfl, List.mem_append.mpr (Or.inr hmem.1)⟩
  · rw [if_neg hmem]
    exact Or.inl rfl

theorem gridCompat_updateGameState (m : GameLogic) :
    gridCompat m (updateGameState m) := by
  unfold updateGameState
  have h1 : gridCompat m (aquaPhase m) := gridCompat_of_eq rfl rfl
  have h2 := gridCompat_trans h1 (gridCompat_handleCollisions (aquaPhase m))
  have h3 := gridCompat_trans h2
    (gridCompat_of_eq rfl rfl :
      gridCompat (handleLavaAquaCollisions (aquaPhase m))
        (lavaPhase (handleLavaAquaCollisions (aquaPhase m))))
  have h4 := gridCompat_trans h3
    (gridCompat_handleCollisions (lavaPhase (handleLavaAquaCollisions (aquaPhase m))))
  have h5 := gridCompat_trans h4
    (gridCompat_of_eq rfl rfl :
      gridCompat (handleLavaAquaCollisions (lavaPhase
          (handleLavaAquaCollisions (aquaPhase m))))
        (ageWallsPhase (handleLavaAquaCollisions (lavaPhase
          (handleLavaAquaCollisions (aquaPhase m))))))
  exact gridCompat_trans h5 (gridCompat_of_eq rfl rfl)

theorem collectKeysAt_map_pos (p : Pos) (ks : List ExitKey) :
    (collectKeysAt p ks).map ExitKey.pos = ks.map ExitKey.pos := by
  unfold collectKeysAt
  rw [List.map_map]
  refine List.map_congr_left ?_
  intro k _
  simp only [Function.comp]
  by_cases h : k.pos = p && !k.collected
  · rw [if_pos h]
  · rw [if_neg h]

theorem tempWallUpdate_map_pos (ws : List TemporaryWall) :
    (ws.map TemporaryWall.update).map TemporaryWall.pos = ws.map TemporaryWall.pos := by
  rw [List.map_map]
  refine List.map_congr_left ?_
  intro w _
  rfl

theorem movePlayer_relation (l : GameLogic) (d : Direction) :
    (movePlayer l d).2.boxes.length = l.boxes.length ∧
    (movePlayer l d).2.exitKeys.map ExitKey.pos = l.exitKeys.map ExitKey.pos ∧
    (movePlayer l d).2.tempWalls.map TemporaryWall.pos
      = l.tempWalls.map TemporaryWall.pos := by
  unfold movePlayer
  rcases hm : attemptMove l d with _ | m
  · exact ⟨rfl, rfl, rfl⟩
  · simp only
    obtain ⟨hb, hk, hw, _, _, _, _, _, _, _, _⟩ := attemptMove_fields l d m hm
    obtain ⟨ub, _, _, _, _, uw, uk⟩ := updateGameState_fields m
    refine ⟨by rw [ub, hb], ?_, ?_⟩
    · rw [uk, collectKeysAt_map_pos, hk]
    · rw [uw, tempWallUpdate_map_pos, hw]

theorem trimHistory_getLast (hist : List GameState) (st : GameState) :
    (trimHistory (hist ++ [st])).getLast? = some st := by
  unfold trimHistory
  split
  · rcases hist with _ | ⟨a, rest⟩
    · simp [MAX_UNDO_HISTORY] at *
    · rw [List.cons_append, List.drop_one, List.tail_cons]
      exact List.getLast?_concat _
  · exact List.getLast?_concat _

theorem getState_restoreEntities (l1 l0 : GameLogic)
    (hb : l1.boxes.length = l0.boxes.length)
    (hk : l1.exitKeys.map ExitKey.pos = l0.exitKeys.map ExitKey.pos)
    (hw : l1.tempWalls.map TemporaryWall.pos = l0.tempWalls.map TemporaryWall.pos)
    (hnd : (l0.tempWalls.map TemporaryWall.pos).Nodup) :
    getState (restoreEntities l1 (getState l0)) = getState l0 := by
  have hkeys : restoreKeys l1.exitKeys (collectedIndices l0.exitKeys) 0 = l0.exitKeys :=
    restoreKeys_collectedIndices _ _ hk
  have hboxes : overwriteBoxes l0.boxes l1.boxes = l0.boxes :=
    overwriteBoxes_eq _ _ hb.symm
  have hwalls : (restoreWallDurations l1.tempWalls
      (l0.tempWalls.map (fun w => (w.pos, w.remaining)))).map
        (fun w => (w.pos, w.remaining))
      = l0.tempWalls.map (fun w => (w.pos, w.remaining)) := by
    refine restoreWallDurations_restores _ _ ?_ ?_
    · rw [hw, List.map_map]
      rfl
    · rw [List.map_map]
      have hcomp : (Prod.fst ∘ fun w : TemporaryWall => (w.pos, w.remaining))
          = TemporaryWall.pos := rfl
      rw [hcomp]
      exact hnd
  have hlava : (sortedPosList l0.lava).toFinset = l0.lava := sortedPosList_toFinset _
  have haqua : (sortedPosList l0.aqua).toFinset = l0.aqua := sortedPosList_toFinset _
  unfold restoreEntities getState
  dsimp only
  rw [hkeys, hboxes, hwalls, hlava, haqua]

theorem getState_checkGameState (x : GameLogic)
    (h : collectKeysAt x.player x.exitKeys = x.exitKeys) :
    getState (checkGameState x) = getState x := by
  unfold getState checkGameState
  dsimp only
  rw [h]

theorem restoreEntities_player (l1 : GameLogic) (st : GameState) :
    (restoreEntities l1 st).player = st.player_pos := rfl

theorem restoreEntities_exitKeys (l1 : GameLogic) (st : GameState) :
    (restoreEntities l1 st).exitKeys = restoreKeys l1.exitKeys st.collected_key_indices 0 :=
  rfl

theorem getState_loadState (l1 l0 : GameLogic)
    (hb : l1.boxes.length = l0.boxes.length)
    (hk : l1.exitKeys.map ExitKey.pos = l0.exitKeys.map ExitKey.pos)
    (hw : l1.tempWalls.map TemporaryWall.pos = l0.tempWalls.map TemporaryWall.pos)
    (hnd : (l0.tempWalls.map TemporaryWall.pos).Nodup)
    (hinv : ∀ k ∈ l0.exitKeys, k.pos = l0.player → k.collected = true) :
    getState (loadState l1 (getState l0)) = getState l0 := by
  unfold loadState
  have hkeys : (restoreEntities l1 (getState l0)).exitKeys = l0.exitKeys := by
    rw [restoreEntities_exitKeys]
    exact restoreKeys_collectedIndices _ _ hk
  have hplayer : (restoreEntities l1 (getState l0)).player = l0.player := rfl
  have hcollect : collectKeysAt (restoreEntities l1 (getState l0)).player
      (restoreEntities l1 (getState l0)).exitKeys
      = (restoreEntities l1 (getState l0)).exitKeys := by
    rw [hkeys, hplayer]
    exact collectKeysAt_eq_self l0.player l0.exitKeys hinv
  rw [getState_checkGameState _ hcollect]
  exact getState_restoreEntities l1 l0 hb hk hw hnd

/-- Concrete 3x3 demonstration grid used by the witnesses. -/
def demoGrid : Grid :=
  { width := 3, height := 3,
    tiles := [[TileType.EMPTY, TileType.EMPTY, TileType.EMPTY],
              [TileType.EMPTY, TileType.EMPTY, TileType.EMPTY],
              [TileType.EMPTY, TileType.EMPTY, TileType.EXIT]] }

/-- Concrete engine state on `demoGrid` used by the witnesses. -/
def demoLogic : GameLogic :=
  { grid := demoGrid, player := (0, 0), lava := ∅, aqua := ∅, boxes := [],
    exitKeys := [], tempWalls := [], alteredTilePositions := [], exitPos := (2, 2),
    moves := 0, history := [], gameOver := false, levelComplete := false }

/-- Claim C1: `simulate_move(direction)` returns a successor GameState
exactly when the move commits and does not result in GameOver (otherwise it
returns none), and in every case the engine's observable state (canonical
key) after the call equals its state before the call.  The hypotheses are
invariants of every engine-produced state: distinct temporary-wall
positions, and no uncollected key under the player (any such key is
collected by `_check_game_state` before control returns). -/
theorem C1_simulateMove_pure (l : GameLogic) (d : Direction)
    (hnd : (l.tempWalls.map TemporaryWall.pos).Nodup)
    (hinv : ∀ k ∈ l.exitKeys, k.pos = l.player → k.collected = true) :
    ((simulateMove l d).1 ≠ none ↔
      ((movePlayer l d).1 = true ∧ (movePlayer l d).2.gameOver = false)) ∧
    (∀ st, (simulateMove l d).1 = some st → st = getState (movePlayer l d).2) ∧
    baseHashState (getState (simulateMove l d).2) = baseHashState (getState l) := by
  have hsnd : (simulateMove l d).2 = loadState (movePlayer l d).2 (getState l) := by
    unfold simulateMove
    split
    · rfl
    · rfl
  have hrel := movePlayer_relation l d
  have hload : getState (loadState (movePlayer l d).2 (getState l)) = getState l :=
    getState_loadState _ _ hrel.1 hrel.2.1 hrel.2.2 hnd hinv
  refine ⟨?_, ?_, ?_⟩
  · rcases h1 : (movePlayer l d).1 with _ | _ <;>
      rcases h2 : (movePlayer l d).2.gameOver with _ | _ <;>
      simp [simulateMove, h1, h2]
  · intro st hst
    unfold simulateMove at hst
    split at hst
    · injection hst with hst
      exact hst.symm
    · exact absurd hst (by simp)
  · rw [hsnd, hload]

/-- Witness for C1 at a concrete state and direction. -/
theorem C1_witness :
    (demoLogic.tempWalls.map TemporaryWall.pos).Nodup ∧
    (∀ k ∈ demoLogic.exitKeys, k.pos = demoLogic.player → k.collected = true) ∧
    (((simulateMove demoLogic Direction.RIGHT).1 ≠ none ↔
      ((movePlayer demoLogic Direction.RIGHT).1 = true ∧
        (movePlayer demoLogic Direction.RIGHT).2.gameOver = false)) ∧
    (∀ st, (simulateMove demoLogic Direction.RIGHT).1 = some st →
      st = getState (movePlayer demoLogic Direction.RIGHT).2) ∧
    baseHashState (getState (simulateMove demoLogic Direction.RIGHT).2)
      = baseHashState (getState demoLogic)) :=
  ⟨by decide, by decide, C1_simulateMove_pure demoLogic Direction.RIGHT (by decide) (by decide)⟩

theorem movePlayer_fst_eq_moveLegal (l : GameLogic) (d : Direction) :
    (movePlayer l d).1 = moveLegal l d := by
  by_cases h1 : (l.gameOver || l.levelComplete) = true
  · simp [movePlayer, attemptMove, moveLegal, h1]
  · by_cases h2 : (!(canMoveTo l (stepPos l.player d))) = true
    · simp [movePlayer, attemptMove, moveLegal, h1, h2]
    · rcases h3 : getBoxIdxAt l (stepPos l.player d) with _ | i
      · simp [movePlayer, attemptMove, moveLegal, h1, h2, h3]
      · by_cases h4 : canPushBox l (stepPos (stepPos l.player d) d) = true
        · simp [movePlayer, attemptMove, moveLegal, h1, h2, h3, h4]
        · simp [movePlayer, attemptMove, moveLegal, h1, h2, h3, h4]

/-- Claim C2: when the move is illegal (terminal state, non-walkable or
temp-wall-covered target - both folded into `canMoveTo` - or a blocked box
push), `move_player` returns false and leaves the whole engine state
unchanged: player, boxes, hazards, keys, walls, grid, move counter and undo
history. -/
theorem C2_rejected_move_noop (l : GameLogic) (d : Direction)
    (hill : l.gameOver = true ∨ l.levelComplete = true ∨
      canMoveTo l (stepPos l.player d) = false ∨
      (∃ i, getBoxIdxAt l (stepPos l.player d) = some i ∧
        canPushBox l (stepPos (stepPos l.player d) d) = false)) :
    movePlayer l d = (false, l) := by
  have hnone : attemptMove l d = none := by
    rcases hill with h | h | h | ⟨i, hi, hp⟩
    · simp [attemptMove, h]
    · simp [attemptMove, h]
    · simp [attemptMove, h]
    · simp [attemptMove, hi, hp]
  unfold movePlayer
  rw [hnone]

/-- Witness for C2: moving up from the corner of the demo level is illegal
(out of bounds) and is an exact no-op. -/
theorem C2_witness :
    (demoLogic.gameOver = true ∨ demoLogic.levelComplete = true ∨
      canMoveTo demoLogic (stepPos demoLogic.player Direction.UP) = false ∨
      (∃ i, getBoxIdxAt demoLogic (stepPos demoLogic.player Direction.UP) = some i ∧
        canPushBox demoLogic
          (stepPos (stepPos demoLogic.player Direction.UP) Direction.UP) = false)) ∧
    movePlayer demoLogic Direction.UP = (false, demoLogic) :=
  ⟨Or.inr (Or.inr (Or.inl (by decide))),
    C2_rejected_move_noop demoLogic Direction.UP (Or.inr (Or.inr (Or.inl (by decide))))⟩

theorem flowable_not_key (g : Grid) (x y : Int) (h : g.isFlowable x y = true) :
    g.getTileType x y ≠ some TileType.Key := by
  unfold Grid.isFlowable at h
  intro hc
  rw [hc] at h
  simp [TileType.isFlowableType] at h

theorem mem_lavaDirs_map (p n : Pos) :
    n ∈ lavaDirs.map (fun d => (p.1 + d.1, p.2 + d.2)) ↔ n ∈ axisNeighbors p := by
  rcases p with ⟨a, b⟩
  rcases n with ⟨u, v⟩
  simp [lavaDirs, axisNeighbors, Prod.ext_iff]
  omega

theorem mem_aquaDirs_map (p n : Pos) :
    n ∈ aquaDirs.map (fun d => (p.1 + d.1, p.2 + d.2)) ↔ n ∈ axisNeighbors p := by
  rcases p with ⟨a, b⟩
  rcases n with ⟨u, v⟩
  simp [aquaDirs, axisNeighbors, Prod.ext_iff]
  omega

/-- Spec 4.2 spread set: every four-axis-neighbor of an occupied cell that is
within bounds, flowable, not a key cell, not box-occupied and not blocked by
an active temporary wall.  Stated from the spec's words, for comparison with
the source definitions `lavaUpdate` and `aquaUpdate`. -/
def hazardSpreadSpec (s : Finset Pos) (g : Grid)
    (boxPositions tempWallPositions : List Pos) : Finset Pos :=
  s.biUnion (fun p =>
    ((axisNeighbors p).filter (fun n =>
      inBoundsB g n && g.isFlowable n.1 n.2
        && !(g.getTileType n.1 n.2 = some TileType.Key)
        && !(boxPositions.contains n)
        && !(tempWallPositions.contains n))).toFinset)

theorem lavaUpdate_eq_spec (s : Finset Pos) (g : Grid)
    (boxPositions tempWallPositions : List Pos) :
    lavaUpdate s g boxPositions tempWallPositions
      = s ∪ hazardSpreadSpec s g boxPositions tempWallPositions := by
  unfold lavaUpdate hazardSpreadSpec
  refine congrArg (s ∪ ·) (Finset.biUnion_congr rfl ?_)
  intro p _
  apply Finset.ext
  intro n
  simp only [List.mem_toFinset, List.mem_filter, Bool.and_eq_true]
  constructor
  · rintro ⟨hmem, ⟨⟨hbounds, hflow⟩, hbox⟩, hwall⟩
    refine ⟨(mem_lavaDirs_map p n).mp hmem, ⟨⟨⟨hbounds, hflow⟩, ?_⟩, hbox⟩, hwall⟩
    simpa using flowable_not_key g n.1 n.2 hflow
  · rintro ⟨hmem, ⟨⟨⟨hbounds, hflow⟩, _⟩, hbox⟩, hwall⟩
    exact ⟨(mem_lavaDirs_map p n).mpr hmem, ⟨⟨hbounds, hflow⟩, hbox⟩, hwall⟩

theorem aquaUpdate_eq_spec (s : Finset Pos) (g : Grid)
    (boxPositions tempWallPositions : List Pos) :
    aquaUpdate s g boxPositions tempWallPositions
      = s ∪ hazardSpreadSpec s g boxPositions tempWallPositions := by
  unfold aquaUpdate hazardSpreadSpec
  refine congrArg (s ∪ ·) (Finset.biUnion_congr rfl ?_)
  intro p _
  apply Finset.ext
  intro n
  simp only [List.mem_toFinset, List.mem_filter, Bool.and_eq_true]
  constructor
  · rintro ⟨hmem, ⟨⟨⟨hb, hf⟩, hbox⟩, hkey⟩, hwall⟩
    exact ⟨(mem_aquaDirs_map p n).mp hmem, ⟨⟨⟨hb, hf⟩, hkey⟩, hbox⟩, hwall⟩
  · rintro ⟨hmem, ⟨⟨⟨hb, hf⟩, hkey⟩, hbox⟩, hwall⟩
    exact ⟨(mem_aquaDirs_map p n).mpr hmem, ⟨⟨⟨hb, hf⟩, hbox⟩, hkey⟩, hwall⟩

/-- Claim C4: for both hazard kinds one tick produces exactly the union of
the previous cell set with every four-axis-neighbor of an occupied cell that
is within bounds, flowable, not a key cell, not box-occupied, and not
blocked by an active temporary wall; in particular the tick never removes a
cell.  (For Lava the key condition holds because a Key tile is never
flowable; for Aqua it is checked explicitly in the source.) -/
theorem C4_hazard_tick_exact (s : Finset Pos) (g : Grid)
    (boxPositions tempWallPositions : List Pos) :
    lavaUpdate s g boxPositions tempWallPositions
      = s ∪ hazardSpreadSpec s g boxPositions tempWallPositions ∧
    aquaUpdate s g boxPositions tempWallPositions
      = s ∪ hazardSpreadSpec s g boxPositions tempWallPositions ∧
    s ⊆ lavaUpdate s g boxPositions tempWallPositions ∧
    s ⊆ aquaUpdate s g boxPositions tempWallPositions :=
  ⟨lavaUpdate_eq_spec s g boxPositions tempWallPositions,
    aquaUpdate_eq_spec s g boxPositions tempWallPositions,
    Finset.subset_union_left,
    Finset.subset_union_left⟩

theorem handleCollisions_disjoint (l : GameLogic) :
    (handleLavaAquaCollisions l).lava ∩ (handleLavaAquaCollisions l).aqua = ∅ := by
  unfold handleLavaAquaCollisions
  dsimp only
  apply Finset.ext
  intro p
  simp only [Finset.mem_inter, Finset.mem_sdiff, Finset.not_mem_empty, iff_false]
  rintro ⟨⟨hl, hnl⟩, ⟨ha, hna⟩⟩
  exact hnl ⟨hl, ha⟩

/-- Claim C5: after every committed `move_player` call returns, the Lava and
Aqua cell sets are disjoint (the second collision pass runs last among the
hazard mutations of the tick). -/
theorem C5_hazards_disjoint (l : GameLogic) (d : Direction)
    (h : (movePlayer l d).1 = true) :
    (movePlayer l d).2.lava ∩ (movePlayer l d).2.aqua = ∅ := by
  unfold movePlayer at h ⊢
  rcases hm : attemptMove l d with _ | m
  · rw [hm] at h
    simp at h
  · exact handleCollisions_disjoint
      (lavaPhase (handleLavaAquaCollisions (aquaPhase m)))

/-- Witness for C5: a committed move on the demo level. -/
theorem C5_witness :
    (movePlayer demoLogic Direction.RIGHT).1 = true ∧
    (movePlayer demoLogic Direction.RIGHT).2.lava ∩
      (movePlayer demoLogic Direction.RIGHT).2.aqua = ∅ :=
  ⟨by decide, C5_hazards_disjoint demoLogic Direction.RIGHT (by decide)⟩

theorem checkGameState_flags (x : GameLogic) :
    ((checkGameState x).levelComplete = true ↔
      ((x.player = x.exitPos ∧
        (collectKeysAt x.player x.exitKeys).all (fun k => k.collected) = true) ∨
        x.levelComplete = true)) ∧
    ((checkGameState x).gameOver = true ↔
      (x.player ∈ x.lava ∨
        x.grid.getTileType x.player.1 x.player.2 = some TileType.WALL ∨
        x.gameOver = true)) := by
  unfold checkGameState
  dsimp only
  constructor
  · by_cases hc : (decide (x.player = x.exitPos)
        && (collectKeysAt x.player x.exitKeys).all (fun k => k.collected)) = true
    · rw [if_pos hc]
      simp only [Bool.and_eq_true, decide_eq_true_eq] at hc
      constructor
      · intro _
        exact Or.inl hc
      · intro _
        rfl
    · rw [if_neg hc]
      simp only [Bool.and_eq_true, decide_eq_true_eq] at hc
      constructor
      · intro hh
        exact Or.inr hh
      · rintro (⟨h1, h2⟩ | hh)
        · exact absurd ⟨h1, h2⟩ hc
        · exact hh
  · by_cases h1 : x.player ∈ x.lava
    · rw [if_pos h1]
      simp [h1]
    · rw [if_neg h1]
      by_cases h2 : x.grid.getTileType x.player.1 x.player.2 = some TileType.WALL
      · rw [if_pos h2]
        simp [h1, h2]
      · rw [if_neg h2]
        simp [h1, h2]

theorem checkGameState_flags_clear (x : GameLogic)
    (hlc : x.levelComplete = false) (hgo : x.gameOver = false) :
    ((checkGameState x).levelComplete = true ↔
      (x.player = x.exitPos ∧
        (collectKeysAt x.player x.exitKeys).all (fun k => k.collected) = true)) ∧
    ((checkGameState x).gameOver = true ↔
      (x.player ∈ x.lava ∨
        x.grid.getTileType x.player.1 x.player.2 = some TileType.WALL)) := by
  obtain ⟨h1, h2⟩ := checkGameState_flags x
  constructor
  · rw [h1, hlc]
    simp
  · rw [h2, hgo]
    simp

theorem attemptMove_guard (l : GameLogic) (d : Direction) (m : GameLogic)
    (hm : attemptMove l d = some m) :
    l.gameOver = false ∧ l.levelComplete = false := by
  by_cases hg : (l.gameOver || l.levelComplete) = true
  · unfold attemptMove at hm
    rw [if_pos hg] at hm
    exact absurd hm (by simp)
  · rcases hgo : l.gameOver with _ | _ <;> rcases hlc : l.levelComplete with _ | _ <;>
      simp [hgo, hlc] at hg ⊢

/-- Claim C7: after a committed move, terminal evaluation first collects any
ExitKey at the player's new cell, then sets LevelComplete exactly when the
player's cell equals the exit cell and all keys are collected, and otherwise
sets GameOver exactly when the player's cell contains Lava or is a WALL tile
(the final grid is consulted, so a tile promoted during the same tick
counts). -/
theorem C7_terminal_evaluation (l : GameLogic) (d : Direction)
    (h : (movePlayer l d).1 = true) :
    (movePlayer l d).2.player = stepPos l.player d ∧
    (movePlayer l d).2.exitKeys = collectKeysAt (stepPos l.player d) l.exitKeys ∧
    ((movePlayer l d).2.levelComplete = true ↔
      ((movePlayer l d).2.player = (movePlayer l d).2.exitPos ∧
        (movePlayer l d).2.exitKeys.all (fun k => k.collected) = true)) ∧
    ((movePlayer l d).2.levelComplete = false →
      ((movePlayer l d).2.gameOver = true ↔
        ((movePlayer l d).2.player ∈ (movePlayer l d).2.lava ∨
          (movePlayer l d).2.grid.getTileType (movePlayer l d).2.player.1
            (movePlayer l d).2.player.2 = some TileType.WALL))) := by
  unfold movePlayer at h ⊢
  rcases hm : attemptMove l d with _ | m
  · rw [hm] at h
    simp at h
  · dsimp only
    obtain ⟨_, hkeys, _, _, _, _, _, _, hplayer, hgo, hlc⟩ := attemptMove_fields l d m hm
    obtain ⟨hgo0, hlc0⟩ := attemptMove_guard l d m hm
    have hXlc : (ageWallsPhase (handleLavaAquaCollisions (lavaPhase
        (handleLavaAquaCollisions (aquaPhase m))))).levelComplete = false := by
      show m.levelComplete = false
      rw [hlc, hlc0]
    have hXgo : (ageWallsPhase (handleLavaAquaCollisions (lavaPhase
        (handleLavaAquaCollisions (aquaPhase m))))).gameOver = false := by
      show m.gameOver = false
      rw [hgo, hgo0]
    have hflags := checkGameState_flags_clear _ hXlc hXgo
    refine ⟨?_, ?_, hflags.1, fun _ => hflags.2⟩
    · show m.player = stepPos l.player d
      exact hplayer
    · show collectKeysAt m.player m.exitKeys = collectKeysAt (stepPos l.player d) l.exitKeys
      rw [hplayer, hkeys]

/-- Witness for C7: a committed move on the demo level. -/
theorem C7_witness :
    (movePlayer demoLogic Direction.RIGHT).1 = true ∧
    ((movePlayer demoLogic Direction.RIGHT).2.player
        = stepPos demoLogic.player Direction.RIGHT ∧
    (movePlayer demoLogic Direction.RIGHT).2.exitKeys
        = collectKeysAt (stepPos demoLogic.player Direction.RIGHT) demoLogic.exitKeys ∧
    ((movePlayer demoLogic Direction.RIGHT).2.levelComplete = true ↔
      ((movePlayer demoLogic Direction.RIGHT).2.player
          = (movePlayer demoLogic Direction.RIGHT).2.exitPos ∧
        (movePlayer demoLogic Direction.RIGHT).2.exitKeys.all
          (fun k => k.collected) = true)) ∧
    ((movePlayer demoLogic Direction.RIGHT).2.levelComplete = false →
      ((movePlayer demoLogic Direction.RIGHT).2.gameOver = true ↔
        ((movePlayer demoLogic Direction.RIGHT).2.player
            ∈ (movePlayer demoLogic Direction.RIGHT).2.lava ∨
          (movePlayer demoLogic Direction.RIGHT).2.grid.getTileType
            (movePlayer demoLogic Direction.RIGHT).2.player.1
            (movePlayer demoLogic Direction.RIGHT).2.player.2
            = some TileType.WALL)))) :=
  ⟨by decide, C7_terminal_evaluation demoLogic Direction.RIGHT (by decide)⟩

theorem boxIdxAux_spec : ∀ (bs : List Pos) (p : Pos) (i j : Nat),
    boxIdxAux bs p i = some j → ∃ k, j = i + k ∧ bs.get? k = some p
  | [], _, _, _, h => by simp [boxIdxAux] at h
  | b :: rest, p, i, j, h => by
    rw [boxIdxAux] at h
    by_cases hb : b = p
    · rw [if_pos hb] at h
      injection h with h
      exact ⟨0, by omega, by rw [hb]; rfl⟩
    · rw [if_neg hb] at h
      rcases boxIdxAux_spec rest p (i + 1) j h with ⟨k, hk, hget⟩
      exact ⟨k + 1, by omega, hget⟩

theorem getBoxIdxAt_spec (l : GameLogic) (p : Pos) (i : Nat)
    (h : getBoxIdxAt l p = some i) :
    i < l.boxes.length ∧ l.boxes.get? i = some p := by
  rcases boxIdxAux_spec l.boxes p 0 i h with ⟨k, hk, hget⟩
  have hki : k = i := by omega
  subst hki
  exact ⟨by
    by_contra hge
    rw [List.get?_eq_none.mpr (by omega)] at hget
    exact absurd hget (by simp), hget⟩

theorem posList_contains_iff (l : List Pos) (p : Pos) :
    l.contains p = true ↔ p ∈ l := by
  induction l with
  | nil => simp
  | cons a rest ih =>
    simp [List.contains_cons, ih]

theorem not_mem_spread_of_box (s : Finset Pos) (g : Grid)
    (boxPositions tempWallPositions : List Pos) (p : Pos) (hb : p ∈ boxPositions) :
    p ∉ hazardSpreadSpec s g boxPositions tempWallPositions := by
  intro hmem
  unfold hazardSpreadSpec at hmem
  rcases Finset.mem_biUnion.mp hmem with ⟨q, _, hq⟩
  rw [List.mem_toFinset, List.mem_filter] at hq
  have hcond := hq.2
  simp only [Bool.and_eq_true, Bool.not_eq_true'] at hcond
  exact absurd ((posList_contains_iff boxPositions p).mpr hb)
    (by rw [hcond.1.2]; simp)

theorem not_mem_lavaUpdate_of_box (s : Finset Pos) (g : Grid)
    (boxPositions tempWallPositions : List Pos) (p : Pos)
    (hs : p ∉ s) (hb : p ∈ boxPositions) :
    p ∉ lavaUpdate s g boxPositions tempWallPositions := by
  rw [lavaUpdate_eq_spec]
  intro hmem
  rcases Finset.mem_union.mp hmem with h | h
  · exact hs h
  · exact not_mem_spread_of_box s g boxPositions tempWallPositions p hb h

theorem not_mem_aquaUpdate_of_box (s : Finset Pos) (g : Grid)
    (boxPositions tempWallPositions : List Pos) (p : Pos)
    (hs : p ∉ s) (hb : p ∈ boxPositions) :
    p ∉ aquaUpdate s g boxPositions tempWallPositions := by
  rw [aquaUpdate_eq_spec]
  intro hmem
  rcases Finset.mem_union.mp hmem with h | h
  · exact hs h
  · exact not_mem_spread_of_box s g boxPositions tempWallPositions p hb h

theorem handleCollisions_lava_subset (x : GameLogic) :
    (handleLavaAquaCollisions x).lava ⊆ x.lava := Finset.sdiff_subset

theorem handleCollisions_aqua_subset (x : GameLogic) :
    (handleLavaAquaCollisions x).aqua ⊆ x.aqua := Finset.sdiff_subset

/-- Claim C8: a player move into a box-occupied cell commits exactly when
the cell one step beyond the box is walkable, not occupied by another box
and not covered by an active TemporaryWall (the three checks of
`_can_push_box`); on commit the box moves to that cell and any hazard there
is removed, leaving the cell hazard-free and box-occupied after the whole
move (the tick cannot re-flood a box-occupied cell). -/
theorem C8_box_push (l : GameLogic) (d : Direction) (i : Nat)
    (hg : l.gameOver = false) (hlc : l.levelComplete = false)
    (hmove : canMoveTo l (stepPos l.player d) = true)
    (hbox : getBoxIdxAt l (stepPos l.player d) = some i) :
    ((movePlayer l d).1 = true ↔
      canPushBox l (stepPos (stepPos l.player d) d) = true) ∧
    (canPushBox l (stepPos (stepPos l.player d) d) = true →
      (movePlayer l d).2.boxes = l.boxes.set i (stepPos (stepPos l.player d) d) ∧
      stepPos (stepPos l.player d) d ∈ (movePlayer l d).2.boxes ∧
      stepPos (stepPos l.player d) d ∉ (movePlayer l d).2.lava ∧
      stepPos (stepPos l.player d) d ∉ (movePlayer l d).2.aqua) := by
  have hatt : attemptMove l d =
      (if canPushBox l (stepPos (stepPos l.player d) d) then
        some (executeBoxPush l i (stepPos l.player d) (stepPos (stepPos l.player d) d))
      else none) := by
    unfold attemptMove
    rw [if_neg (by simp [hg, hlc]), if_neg (by simp [hmove]), hbox]
  by_cases hp : canPushBox l (stepPos (stepPos l.player d) d) = true
  · have hmp : movePlayer l d = (true, updateGameState
        (executeBoxPush l i (stepPos l.player d) (stepPos (stepPos l.player d) d))) := by
      unfold movePlayer
      rw [hatt, if_pos hp]
    rw [hmp]
    dsimp only
    refine ⟨by simp [hp], fun _ => ?_⟩
    have hilt := (getBoxIdxAt_spec l _ i hbox).1
    have hboxes : (updateGameState (executeBoxPush l i (stepPos l.player d)
        (stepPos (stepPos l.player d) d))).boxes
        = l.boxes.set i (stepPos (stepPos l.player d) d) := rfl
    refine ⟨hboxes, ?_, ?_, ?_⟩
    · rw [hboxes]
      exact List.get?_mem (listGet_set_self _ _ _ hilt)
    · have hmemE : stepPos (stepPos l.player d) d ∈
          (executeBoxPush l i (stepPos l.player d)
            (stepPos (stepPos l.player d) d)).boxes :=
        List.get?_mem (listGet_set_self _ _ _ hilt)
      have hEnl : stepPos (stepPos l.player d) d ∉
          (executeBoxPush l i (stepPos l.player d)
            (stepPos (stepPos l.player d) d)).lava :=
        Finset.not_mem_erase _ _
      intro hmem
      have h1 := handleCollisions_lava_subset (lavaPhase (handleLavaAquaCollisions
        (aquaPhase (executeBoxPush l i (stepPos l.player d)
          (stepPos (stepPos l.player d) d))))) hmem
      have h2 : stepPos (stepPos l.player d) d ∉ (handleLavaAquaCollisions
          (aquaPhase (executeBoxPush l i (stepPos l.player d)
            (stepPos (stepPos l.player d) d)))).lava := by
        intro hmem2
        exact hEnl (handleCollisions_lava_subset
          (aquaPhase (executeBoxPush l i (stepPos l.player d)
            (stepPos (stepPos l.player d) d))) hmem2)
      exact absurd h1 (by
        refine not_mem_lavaUpdate_of_box _ _ _ _ _ h2 ?_
        exact hmemE)
    · have hmemE : stepPos (stepPos l.player d) d ∈
          (executeBoxPush l i (stepPos l.player d)
            (stepPos (stepPos l.player d) d)).boxes :=
        List.get?_mem (listGet_set_self _ _ _ hilt)
      have hEna : stepPos (stepPos l.player d) d ∉
          (executeBoxPush l i (stepPos l.player d)
            (stepPos (stepPos l.player d) d)).aqua :=
        Finset.not_mem_erase _ _
      intro hmem
      have h1 := handleCollisions_aqua_subset (lavaPhase (handleLavaAquaCollisions
        (aquaPhase (executeBoxPush l i (stepPos l.player d)
          (stepPos (stepPos l.player d) d))))) hmem
      have h2 := handleCollisions_aqua_subset (aquaPhase (executeBoxPush l i
        (stepPos l.player d) (stepPos (stepPos l.player d) d))) h1
      exact absurd h2 (not_mem_aquaUpdate_of_box _ _ _ _ _ hEna hmemE)
  · refine ⟨?_, fun hc => absurd hc hp⟩
    have hmp : movePlayer l d = (false, l) := by
      unfold movePlayer
      rw [hatt, if_neg hp]
    rw [hmp]
    simp [hp]

/-- Concrete engine state with a box in front of the player and lava beyond
it, used by the C8 witness (the scenario-C corridor). -/
def demoBoxLogic : GameLogic :=
  { demoLogic with boxes := [(1, 0)], lava := {(2, 0)} }

/-- Witness for C8: pushing the box onto the lava cell commits and leaves
that cell box-occupied and hazard-free. -/
theorem C8_witness :
    (demoBoxLogic.gameOver = false ∧ demoBoxLogic.levelComplete = false ∧
      canMoveTo demoBoxLogic (stepPos demoBoxLogic.player Direction.RIGHT) = true ∧
      getBoxIdxAt demoBoxLogic (stepPos demoBoxLogic.player Direction.RIGHT) = some 0) ∧
    (((movePlayer demoBoxLogic Direction.RIGHT).1 = true ↔
      canPushBox demoBoxLogic
        (stepPos (stepPos demoBoxLogic.player Direction.RIGHT) Direction.RIGHT) = true) ∧
    (canPushBox demoBoxLogic
        (stepPos (stepPos demoBoxLogic.player Direction.RIGHT) Direction.RIGHT) = true →
      (movePlayer demoBoxLogic Direction.RIGHT).2.boxes
        = demoBoxLogic.boxes.set 0
            (stepPos (stepPos demoBoxLogic.player Direction.RIGHT) Direction.RIGHT) ∧
      stepPos (stepPos demoBoxLogic.player Direction.RIGHT) Direction.RIGHT
        ∈ (movePlayer demoBoxLogic Direction.RIGHT).2.boxes ∧
      stepPos (stepPos demoBoxLogic.player Direction.RIGHT) Direction.RIGHT
        ∉ (movePlayer demoBoxLogic Direction.RIGHT).2.lava ∧
      stepPos (stepPos demoBoxLogic.player Direction.RIGHT) Direction.RIGHT
        ∉ (movePlayer demoBoxLogic Direction.RIGHT).2.aqua)) :=
  ⟨⟨by decide, by decide, by decide, by decide⟩,
    C8_box_push demoBoxLogic Direction.RIGHT 0 (by decide) (by decide) (by decide) (by decide)⟩

/-- Claim C3: every committed move runs exactly one tick in the order
aqua propagation, collision resolution, lava propagation, a second collision
resolution, temporary-wall aging, then terminal evaluation; collision
resolution removes both fluids from each colliding cell, promotes the cell
to WALL and records it in the altered-tile list, and wall aging decrements
every active positive-duration wall by one, expiring it at zero. -/
theorem C3_tick_order (l : GameLogic) (d : Direction) (m : GameLogic)
    (hm : attemptMove l d = some m) :
    (movePlayer l d).2 = checkGameState (ageWallsPhase (handleLavaAquaCollisions
      (lavaPhase (handleLavaAquaCollisions (aquaPhase m))))) ∧
    (∀ x : GameLogic, (aquaPhase x).aqua
      = aquaUpdate x.aqua x.grid x.boxes (blockingWallPositions x)) ∧
    (∀ x : GameLogic, (lavaPhase x).lava
      = lavaUpdate x.lava x.grid x.boxes (blockingWallPositions x)) ∧
    (∀ x : GameLogic,
      (handleLavaAquaCollisions x).lava = x.lava \ (x.lava ∩ x.aqua) ∧
      (handleLavaAquaCollisions x).aqua = x.aqua \ (x.lava ∩ x.aqua) ∧
      (∀ p ∈ x.lava ∩ x.aqua,
        p ∈ (handleLavaAquaCollisions x).alteredTilePositions) ∧
      (x.grid.WF → ∀ p ∈ x.lava ∩ x.aqua,
        0 ≤ p.1 → p.1 < (x.grid.width : Int) → 0 ≤ p.2 → p.2 < (x.grid.height : Int) →
        (handleLavaAquaCollisions x).grid.getTileType p.1 p.2 = some TileType.WALL)) ∧
    (∀ x : GameLogic, (ageWallsPhase x).tempWalls = x.tempWalls.map TemporaryWall.update) ∧
    (∀ w : TemporaryWall, w.isBlocking = true → 0 < w.remaining →
      ((TemporaryWall.update w).remaining = w.remaining - 1 ∧
        ((TemporaryWall.update w).expired = true ↔ w.remaining - 1 ≤ 0))) := by
  refine ⟨?_, fun x => rfl, fun x => rfl, ?_, fun x => rfl, ?_⟩
  · unfold movePlayer
    rw [hm]
    rfl
  · intro x
    refine ⟨rfl, rfl, ?_, ?_⟩
    · intro p hp
      show p ∈ x.alteredTilePositions ++ sortedPosList (x.lava ∩ x.aqua)
      exact List.mem_append.mpr (Or.inr ((mem_sortedPosList _ _).mpr hp))
    · intro hwf p hp h1 h2 h3 h4
      show (setTilesTo x.grid TileType.WALL (sortedPosList (x.lava ∩ x.aqua))).getTileType
        p.1 p.2 = some TileType.WALL
      rw [Grid.getTileType_setTilesTo _ _ _ hwf p.1 p.2]
      rw [if_pos ⟨by
        rcases p with ⟨a, b⟩
        exact (mem_sortedPosList _ _).mpr hp, h3, h4, h1, h2⟩]
  · intro w hblock hpos
    unfold TemporaryWall.update
    dsimp only
    rw [if_pos hpos]
    refine ⟨rfl, ?_⟩
    by_cases hz : w.remaining - 1 ≤ 0
    · rw [if_pos hz]
      simp [hz]
    · rw [if_neg hz]
      unfold TemporaryWall.isBlocking at hblock
      constructor
      · intro hc
        rw [Bool.not_eq_true'] at hblock
        rw [hblock] at hc
        exact absurd hc (by simp)
      · intro hc
        exact absurd hc hz

/-- Witness for C3: a committed move on the demo level. -/
theorem C3_witness :
    attemptMove demoLogic Direction.RIGHT
      = some (handleEmptySpaceMove demoLogic
          (stepPos demoLogic.player Direction.RIGHT)) ∧
    (movePlayer demoLogic Direction.RIGHT).2
      = checkGameState (ageWallsPhase (handleLavaAquaCollisions (lavaPhase
          (handleLavaAquaCollisions (aquaPhase (handleEmptySpaceMove demoLogic
            (stepPos demoLogic.player Direction.RIGHT))))))) :=
  ⟨by decide, (C3_tick_order demoLogic Direction.RIGHT
    (handleEmptySpaceMove demoLogic (stepPos demoLogic.player Direction.RIGHT))
    (by decide)).1⟩

/-- Claim C6: immediately undoing a committed move returns true and restores
a state whose canonical key equals the pre-move snapshot's key for every
entity kind, restores the move counter, clears any terminal state, and
reverts exactly the tile positions altered since the snapshot back to EMPTY
while leaving every other in-bounds tile as it was before the move.  The
hypotheses are invariants of engine-produced states: distinct temp-wall
positions, a well-formed grid, and altered-tile entries that are WALL
tiles. -/
theorem C6_undo_roundtrip (l : GameLogic) (d : Direction)
    (h : (movePlayer l d).1 = true)
    (hnd : (l.tempWalls.map TemporaryWall.pos).Nodup)
    (hwf : l.grid.WF)
    (halt : ∀ p ∈ l.alteredTilePositions,
      l.grid.getTileType p.1 p.2 = some TileType.WALL) :
    (undo (movePlayer l d).2).1 = true ∧
    baseHashState (getState (undo (movePlayer l d).2).2)
      = baseHashState (getState l) ∧
    (undo (movePlayer l d).2).2.moves = l.moves ∧
    (undo (movePlayer l d).2).2.gameOver = false ∧
    (undo (movePlayer l d).2).2.levelComplete = false ∧
    (∀ x y : Int, 0 ≤ x → x < (l.grid.width : Int) →
      0 ≤ y → y < (l.grid.height : Int) →
      (undo (movePlayer l d).2).2.grid.getTileType x y =
        if (x, y) ∈ (movePlayer l d).2.alteredTilePositions.toFinset \
            l.alteredTilePositions.toFinset
        then some TileType.EMPTY
        else l.grid.getTileType x y) := by
  unfold movePlayer at h ⊢
  rcases hm : attemptMove l d with _ | m
  · rw [hm] at h
    simp at h
  · dsimp only
    obtain ⟨hbl, hkeys, hwalls, hgrid, haltm, hhist, _, _, _, _, _⟩ :=
      attemptMove_fields l d m hm
    have hufields := updateGameState_fields m
    have hrhist : (updateGameState m).history.getLast? = some (getState l) := by
      rw [hufields.2.2.2.1, hhist]
      exact trimHistory_getLast l.history (getState l)
    have hundo : undo (updateGameState m) = (true,
        restoreEntities { updateGameState m with
          history := (updateGameState m).history.dropLast } (getState l)) := by
      unfold undo
      rw [hrhist]
    rw [hundo]
    dsimp only
    have hrb : ({ updateGameState m with
        history := (updateGameState m).history.dropLast } : GameLogic).boxes.length
        = l.boxes.length := by
      show (updateGameState m).boxes.length = l.boxes.length
      rw [hufields.1, hbl]
    have hrk : ({ updateGameState m with
        history := (updateGameState m).history.dropLast } : GameLogic).exitKeys.map
          ExitKey.pos = l.exitKeys.map ExitKey.pos := by
      show (updateGameState m).exitKeys.map ExitKey.pos = _
      rw [hufields.2.2.2.2.2.2, collectKeysAt_map_pos, hkeys]
    have hrw : ({ updateGameState m with
        history := (updateGameState m).history.dropLast } : GameLogic).tempWalls.map
          TemporaryWall.pos = l.tempWalls.map TemporaryWall.pos := by
      show (updateGameState m).tempWalls.map TemporaryWall.pos = _
      rw [hufields.2.2.2.2.2.1, tempWallUpdate_map_pos, hwalls]
    have hkeyeq := getState_restoreEntities _ l hrb hrk hrw hnd
    refine ⟨rfl, congrArg baseHashState hkeyeq, rfl, rfl, rfl, ?_⟩
    intro x y hx1 hx2 hy1 hy2
    obtain ⟨⟨app, happ⟩, hwidth, hheight, hwfp, htile⟩ := gridCompat_updateGameState m
    have hmwf : m.grid.WF := by
      rw [hgrid]
      exact hwf
    have hrwf : (updateGameState m).grid.WF := hwfp hmwf
    show (setTilesTo (updateGameState m).grid TileType.EMPTY
      (sortedPosList ((updateGameState m).alteredTilePositions.toFinset \
        l.alteredTilePositions.toFinset))).getTileType x y = _
    rw [Grid.getTileType_setTilesTo _ _ _ hrwf x y]
    rw [hwidth, hheight, hgrid]
    by_cases hdmem : (x, y) ∈ (updateGameState m).alteredTilePositions.toFinset \
        l.alteredTilePositions.toFinset
    · rw [if_pos ⟨(mem_sortedPosList _ _).mpr hdmem, hy1, hy2, hx1, hx2⟩]
      rw [if_pos hdmem]
    · rw [if_neg (fun hc => hdmem ((mem_sortedPosList _ _).mp hc.1))]
      rw [if_neg hdmem]
      rcases htile hmwf x y with heq | ⟨hwall, hmem⟩
      · rw [heq, hgrid]
      · have hmem' : (x, y) ∈ l.alteredTilePositions := by
          by_contra hno
          exact hdmem (Finset.mem_sdiff.mpr ⟨List.mem_toFinset.mpr hmem,
            fun hc => hno (List.mem_toFinset.mp hc)⟩)
        rw [hwall]
        exact (halt (x, y) hmem').symm

/-- Witness for C6: a committed move on the demo level, undone. -/
theorem C6_witness :
    (movePlayer demoLogic Direction.RIGHT).1 = true ∧
    (demoLogic.tempWalls.map TemporaryWall.pos).Nodup ∧
    demoLogic.grid.WF ∧
    (∀ p ∈ demoLogic.alteredTilePositions,
      demoLogic.grid.getTileType p.1 p.2 = some TileType.WALL) ∧
    ((undo (movePlayer demoLogic Direction.RIGHT).2).1 = true ∧
    baseHashState (getState (undo (movePlayer demoLogic Direction.RIGHT).2).2)
      = baseHashState (getState demoLogic) ∧
    (undo (movePlayer demoLogic Direction.RIGHT).2).2.moves = demoLogic.moves ∧
    (undo (movePlayer demoLogic Direction.RIGHT).2).2.gameOver = false ∧
    (undo (movePlayer demoLogic Direction.RIGHT).2).2.levelComplete = false ∧
    (∀ x y : Int, 0 ≤ x → x < (demoLogic.grid.width : Int) →
      0 ≤ y → y < (demoLogic.grid.height : Int) →
      (undo (movePlayer demoLogic Direction.RIGHT).2).2.grid.getTileType x y =
        if (x, y) ∈ (movePlayer demoLogic Direction.RIGHT).2.alteredTilePositions.toFinset \
            demoLogic.alteredTilePositions.toFinset
        then some TileType.EMPTY
        else demoLogic.grid.getTileType x y)) :=
  ⟨by decide, by decide, ⟨by decide, by decide⟩, by decide,
    C6_undo_roundtrip demoLogic Direction.RIGHT (by decide) (by decide)
      ⟨by decide, by decide⟩ (by decide)⟩

/-- Concrete snapshot with a temp wall of duration 3, for the C9
counterexample. -/
def demoState1 : GameState :=
  { player_pos := (0, 0), box_positions := [], lava_positions := [],
    aqua_positions := [], collected_key_indices := [],
    temp_wall_data := [((1, 1), 3)], altered_tile_positions := [], moves := 0 }

/-- Concrete snapshot identical to `demoState1` except for the temp-wall
duration, for the C9 counterexample. -/
def demoState2 : GameState :=
  { player_pos := (0, 0), box_positions := [], lava_positions := [],
    aqua_positions := [], collected_key_indices := [],
    temp_wall_data := [((1, 1), 2)], altered_tile_positions := [], moves := 0 }

set_option synthInstance.maxHeartbeats 1000000 in
set_option synthInstance.maxSize 2048 in
instance baseKeyDecEq :
    DecidableEq (Pos × List Pos × List Nat × List Pos × List Pos ×
      List (Pos × Int) × List Pos) :=
  fun a b => instDecidableEqProd a b

/-- Counterexample to C9 as stated: `BFSSolver._hash_state` is a solver
strategy's state key, yet it assigns equal keys to two snapshots whose
(TemporaryWall position, duration) components differ, so not every
strategy's key is computed from all seven components, and key equality does
not imply component equality. -/
theorem C9_counterexample :
    bfsHashState demoState1 = bfsHashState demoState2 ∧
    sortTWList demoState1.temp_wall_data ≠ sortTWList demoState2.temp_wall_data ∧
    baseHashState demoState1 ≠ baseHashState demoState2 := by
  refine ⟨by decide, by decide, by decide⟩

/-- Claim C9 as amended: the `BaseSolver._hash_state` key inherited by the
DFS, UCS, Dijkstra, A* and hill-climbing strategies is computed from all
seven components and is equal on two GameStates exactly when the player
positions are equal and each of the six list components agrees as a
multiset, independent of element order; `BFSSolver` overrides the key with
only the player, box, key-index, lava and aqua components, so its keys are
equal exactly when those five agree. -/
theorem C9_state_keys (s1 s2 : GameState) :
    (baseHashState s1 = baseHashState s2 ↔
      (s1.player_pos = s2.player_pos ∧
        s1.box_positions.Perm s2.box_positions ∧
        s1.collected_key_indices.Perm s2.collected_key_indices ∧
        s1.lava_positions.Perm s2.lava_positions ∧
        s1.aqua_positions.Perm s2.aqua_positions ∧
        s1.temp_wall_data.Perm s2.temp_wall_data ∧
        s1.altered_tile_positions.Perm s2.altered_tile_positions)) ∧
    (bfsHashState s1 = bfsHashState s2 ↔
      (s1.player_pos = s2.player_pos ∧
        s1.box_positions.Perm s2.box_positions ∧
        s1.collected_key_indices.Perm s2.collected_key_indices ∧
        s1.lava_positions.Perm s2.lava_positions ∧
        s1.aqua_positions.Perm s2.aqua_positions)) := by
  constructor
  · unfold baseHashState
    simp only [Prod.mk.injEq, sortPosList_eq_iff, sortNatList_eq_iff, sortTWList_eq_iff]
  · unfold bfsHashState
    simp only [Prod.mk.injEq, sortPosList_eq_iff, sortNatList_eq_iff]

/-- Claim C10 (spec-modelled `allowed_moves`): a direction is returned by
`allowed_moves` exactly when ordinary move/push legality holds - that is,
`move_player` would commit - and a one-step lookahead finds no lava on any
of the four axis-neighbors of the destination cell. -/
theorem C10_allowed_moves (l : GameLogic) (d : Direction) :
    d ∈ allowedMoves l ↔
      ((movePlayer l d).1 = true ∧
        ∀ n ∈ axisNeighbors (stepPos l.player d), n ∉ l.lava) := by
  unfold allowedMoves
  rw [List.mem_filter, movePlayer_fst_eq_moveLegal]
  constructor
  · rintro ⟨_, hcond⟩
    rw [Bool.and_eq_true] at hcond
    refine ⟨hcond.1, ?_⟩
    intro n hn hmem
    have hall := List.all_eq_true.mp hcond.2 n hn
    simp only [Bool.not_eq_true', decide_eq_false_iff_not] at hall
    exact hall hmem
  · rintro ⟨hleg, hsafe⟩
    refine ⟨by cases d <;> simp, ?_⟩
    rw [Bool.and_eq_true]
    refine ⟨hleg, List.all_eq_true.mpr ?_⟩
    intro n hn
    simp only [Bool.not_eq_true', decide_eq_false_iff_not]
    exact hsafe n hn
